import Mathlib

/-!
Shallow embedding of the progress-tracking and turn-orchestration pipeline of
the Vibecoursing repository (`src/convex/mistral.ts`), with proofs of the
specification claims about it.

Modelling conventions:
* JavaScript strings are `List Char`; string operations (`trim`,
  `toLowerCase`, `normalize('NFD')`, the Unicode property regexes) are
  modelled character by character on the character repertoire exercised in
  this development; every character outside that repertoire is treated as an
  unaccented, NFD-inert character, exactly as ASCII is in JavaScript.
* Convex documents are structures with a `Nat` id; a table is a `List` of
  documents in insertion order (which is also the iteration order of a
  JavaScript `Map` built from them).
* `Date.now()` timestamps are `Nat` parameters.
* Network interactions (the Mistral HTTP API) are modelled by passing the
  response of each attempt, or the outcome of a generation step, as an
  explicit argument.
-/

deriving instance DecidableEq for Except

namespace Vibecoursing

/-- JavaScript whitespace (the regex class `\s`), on the repertoire used in
this development. -/
def isJsWhitespace (c : Char) : Bool :=
  c = ' ' || c = '\t' || c = '\n' || c = '\r' || c = '\x0b' || c = '\x0c' ||
  c = '\u00a0' || c = '\u2028' || c = '\u2029' || c = '\ufeff'

/-- JavaScript `value.trim()`. -/
def jsTrim (l : List Char) : List Char :=
  ((l.dropWhile isJsWhitespace).reverse.dropWhile isJsWhitespace).reverse

/-- `cleanString` from `src/convex/mistral.ts`: trim, and treat an empty
result as absent (`undefined`). -/
def cleanString (value : List Char) : Option (List Char) :=
  let trimmed := jsTrim value
  if trimmed = [] then none else some trimmed

/-- One character's NFD decomposition (`value.normalize('NFD')`), on the
repertoire used here; ASCII and every unlisted character are NFD-inert. -/
def nfdChar (c : Char) : List Char :=
  if c = 'á' then ['a', '\u0301'] else
  if c = 'é' then ['e', '\u0301'] else
  if c = 'í' then ['i', '\u0301'] else
  if c = 'ó' then ['o', '\u0301'] else
  if c = 'ú' then ['u', '\u0301'] else
  if c = 'à' then ['a', '\u0300'] else
  if c = 'è' then ['e', '\u0300'] else
  if c = 'ì' then ['i', '\u0300'] else
  if c = 'ò' then ['o', '\u0300'] else
  if c = 'ù' then ['u', '\u0300'] else
  if c = 'ä' then ['a', '\u0308'] else
  if c = 'ë' then ['e', '\u0308'] else
  if c = 'ï' then ['i', '\u0308'] else
  if c = 'ö' then ['o', '\u0308'] else
  if c = 'ü' then ['u', '\u0308'] else
  if c = 'ç' then ['c', '\u0327'] else
  if c = 'ñ' then ['n', '\u0303'] else
  if c = 'Á' then ['A', '\u0301'] else
  if c = 'É' then ['E', '\u0301'] else
  if c = 'Ç' then ['C', '\u0327'] else
  [c]

/-- The Unicode binary property `Diacritic` (the regex `\p{Diacritic}`), on
the repertoire used here: the combining-mark block U+0300–U+036F together
with the Latin-1 spacing diacritics that carry the property. -/
def isDiacritic (c : Char) : Bool :=
  (0x300 ≤ c.toNat && c.toNat ≤ 0x36f) || c = '^' || c = '`' ||
  c = '¨' || c = '¯' || c = '´' || c = '¸'

/-- JavaScript `toLowerCase`, character by character on the repertoire used
here. -/
def jsToLower (c : Char) : Char :=
  if 'A' ≤ c && c ≤ 'Z' then Char.ofNat (c.toNat + 32) else
  if c = 'Á' then 'á' else
  if c = 'É' then 'é' else
  if c = 'Ç' then 'ç' else
  c

/-- Lowercase an entire string (`value.toLowerCase()`). -/
def lowerStr (l : List Char) : List Char := l.map jsToLower

/-- The regex class `\p{Letter}`, on the repertoire used here. -/
def isUnicodeLetter (c : Char) : Bool :=
  ('a' ≤ c && c ≤ 'z') || ('A' ≤ c && c ≤ 'Z') ||
  c = 'á' || c = 'é' || c = 'í' || c = 'ó' || c = 'ú' ||
  c = 'à' || c = 'è' || c = 'ì' || c = 'ò' || c = 'ù' ||
  c = 'ä' || c = 'ë' || c = 'ï' || c = 'ö' || c = 'ü' ||
  c = 'ç' || c = 'ñ' || c = 'Á' || c = 'É' || c = 'Ç'

/-- The regex class `\p{Number}`, on the repertoire used here. -/
def isUnicodeNumber (c : Char) : Bool := '0' ≤ c && c ≤ '9'

/-- The replacement `.replace(/\s+/g, ' ')`: every maximal whitespace run
becomes one space. -/
def collapseWhitespace (l : List Char) : List Char :=
  l.foldr
    (fun c acc =>
      if isJsWhitespace c then
        if acc.head? = some ' ' then acc else ' ' :: acc
      else c :: acc)
    []

/-- `normaliseForMatching` from `src/convex/mistral.ts`: NFD decomposition,
diacritic stripping, lowercasing, then non-letter/non-digit characters
become spaces and whitespace is collapsed and trimmed. -/
def normaliseForMatching (value : List Char) : List Char :=
  let withoutDiacritics :=
    ((value.flatMap nfdChar).filter (fun c => !isDiacritic c)).map jsToLower
  jsTrim (collapseWhitespace (withoutDiacritics.map
    (fun c => if isUnicodeLetter c || isUnicodeNumber c || isJsWhitespace c then c else ' ')))

/-- JavaScript `haystack.includes(needle)` helper: does the needle start the
haystack? -/
def strStartsWith : List Char → List Char → Bool
  | _, [] => true
  | [], _ :: _ => false
  | a :: as, b :: bs => a = b && strStartsWith as bs

/-- JavaScript `haystack.includes(needle)`: contiguous-substring test. -/
def strIncludes : List Char → List Char → Bool
  | [], needle => needle.isEmpty
  | a :: rest, needle => strStartsWith (a :: rest) needle || strIncludes rest needle

/-- A row of the `sessionTerms` table. -/
structure TermDoc where
  id : Nat
  phaseIndex : Nat
  term : List Char
  firstCoveredAt : Option Nat
  exposureCount : Option Nat
deriving DecidableEq, Repr

/-- `detectCoveredTerms` from `src/convex/mistral.ts`: a term matches when
the normalised form of `candidate.split('(')[0] || candidate` is a non-empty
contiguous substring of the normalised body. -/
def detectCoveredTerms (body : List Char) (terms : List TermDoc) : List TermDoc :=
  let normalisedBody := normaliseForMatching body
  terms.filter fun term =>
    let candidate := jsTrim term.term
    if candidate = [] then false
    else
      let beforeParen := candidate.takeWhile (fun c => c ≠ '(')
      let chosen := if beforeParen = [] then candidate else beforeParen
      let normalisedCandidate := normaliseForMatching chosen
      if normalisedCandidate = [] then false
      else strIncludes normalisedBody normalisedCandidate

/-- The Term Matcher exactly as the specification words it (claim C4): every
term is matched through the portion of the term strictly before any
parenthetical, and a term whose normalised form is empty never matches.
Written from the specification's words, for comparison with
`detectCoveredTerms`. -/
def detectCoveredTermsSpec (body : List Char) (terms : List TermDoc) : List TermDoc :=
  let normalisedBody := normaliseForMatching body
  terms.filter fun term =>
    let normalisedCandidate := normaliseForMatching (term.term.takeWhile (fun c => c ≠ '('))
    if normalisedCandidate = [] then false
    else strIncludes normalisedBody normalisedCandidate

/-- The Term Matcher as claim C4 must be amended: the portion of the term
before any parenthetical, falling back to the whole trimmed term when that
portion is empty (a term that starts with an opening parenthesis); a term
whose chosen normalised form is empty never matches. -/
def detectCoveredTermsAmended (body : List Char) (terms : List TermDoc) : List TermDoc :=
  let normalisedBody := normaliseForMatching body
  terms.filter fun term =>
    let candidate := jsTrim term.term
    let beforeParen := candidate.takeWhile (fun c => c ≠ '(')
    let chosen := if beforeParen = [] then candidate else beforeParen
    let normalisedCandidate := normaliseForMatching chosen
    if normalisedCandidate = [] then false
    else strIncludes normalisedBody normalisedCandidate

/-- A row of the `sessionPhases` table (the fields the pipeline reads). -/
structure PhaseDoc where
  id : Nat
  index : Nat
  name : List Char
  objective : List Char
deriving DecidableEq, Repr

/-- The `PhaseProgress` record computed by the Progress Aggregator. -/
structure PhaseProgress where
  index : Nat
  name : List Char
  objective : List Char
  totalTerms : Nat
  completedTerms : Nat
  remainingTerms : List (List Char)
  coveredTerms : List (List Char)
  isComplete : Bool
deriving DecidableEq, Repr

/-- Lexicographic code-point comparison, modelling the locale-independent
core of `a.localeCompare(b) <= 0`; the claims only depend on the sort being
a permutation. -/
def strLeB : List Char → List Char → Bool
  | [], _ => true
  | _ :: _, [] => false
  | a :: as, b :: bs => if a = b then strLeB as bs else decide (a < b)

instance : DecidableRel (fun (a b : List Char) => strLeB a b = true) :=
  fun a b => instDecidableEqBool (strLeB a b) true

/-- `.sort((a, b) => a.localeCompare(b))` on term names. -/
def sortStrings (l : List (List Char)) : List (List Char) :=
  List.insertionSort (fun a b => strLeB a b = true) l

instance : DecidableRel (fun (a b : PhaseDoc) => a.index ≤ b.index) :=
  fun a b => Nat.decLe a.index b.index

/-- `phases.sort((a, b) => a.index - b.index)`: stable ascending sort. -/
def sortByIndex (l : List PhaseDoc) : List PhaseDoc :=
  List.insertionSort (fun a b => a.index ≤ b.index) l

/-- The body of the `phases.map` callback inside `buildPhaseProgress`. -/
def phaseProgressOf (termState : List TermDoc) (phase : PhaseDoc) : PhaseProgress :=
  let termsForPhase := termState.filter (fun t => t.phaseIndex == phase.index)
  let coveredTerms := sortStrings ((termsForPhase.filter (fun t => t.firstCoveredAt.isSome)).map (·.term))
  let remaining := sortStrings ((termsForPhase.filter (fun t => t.firstCoveredAt.isNone)).map (·.term))
  { index := phase.index
    name := phase.name
    objective := phase.objective
    totalTerms := termsForPhase.length
    completedTerms := coveredTerms.length
    remainingTerms := remaining
    coveredTerms := coveredTerms
    isComplete := decide (0 < termsForPhase.length) && decide (remaining.length = 0) }

/-- `buildPhaseProgress` from `src/convex/mistral.ts`; `termState` is the
`Map`'s values in insertion order. -/
def buildPhaseProgress (phases : List PhaseDoc) (termState : List TermDoc) : List PhaseProgress :=
  phases.map (phaseProgressOf termState)

/-- A row of the `learningSessions` table (the fields the pipeline touches). -/
structure SessionDoc where
  topic : List Char
  currentPhaseIndex : Option Nat
  totalPhases : Nat
  completedPhases : Nat
  totalTerms : Nat
  completedTerms : Nat
  createdAt : Nat
  updatedAt : Nat
deriving DecidableEq, Repr

/-- The role of a transcript message. -/
inductive MessageRole where
  | user
  | assistant
deriving DecidableEq, Repr

/-- A row of the `sessionMessages` table. -/
structure MessageDoc where
  id : Nat
  role : MessageRole
  body : List Char
  createdAt : Nat
  termsCovered : Option (List (List Char))
  promptTokens : Option Nat
  completionTokens : Option Nat
  totalTokens : Option Nat
deriving DecidableEq, Repr

/-- Token-usage counters reported by the model. -/
structure MistralUsage where
  promptTokens : Option Nat
  completionTokens : Option Nat
  totalTokens : Option Nat
deriving DecidableEq, Repr

/-- A row of the `sessionFollowUps` table. -/
structure FollowUpDoc where
  id : Nat
  sessionId : Nat
  generatedForMessageId : Nat
  prompt : List Char
  rationale : Option (List Char)
  createdAt : Nat
  usedAt : Option Nat
deriving DecidableEq, Repr

/-- One session's slice of the store: its row, its phases, terms, messages,
and the follow-up table; `nextId` allocates fresh document ids. -/
structure SessionState where
  sessionId : Nat
  session : SessionDoc
  phases : List PhaseDoc
  terms : List TermDoc
  messages : List MessageDoc
  followUps : List FollowUpDoc
  nextId : Nat
deriving DecidableEq, Repr

/-- Errors thrown by the turn mutations (`ConvexError` codes). -/
inductive TurnError where
  | emptyMessage
  | userMessageNotFound
deriving DecidableEq, Repr

/-- `termState.get(id)`: the first (in a real table, unique) document with
the given id. -/
def getTermById (state : List TermDoc) (i : Nat) : Option TermDoc :=
  state.find? (fun t => t.id == i)

/-- `termState.set(t.id, t)`: a JavaScript `Map.set` on an existing key
keeps insertion order, so it rewrites the document in place. -/
def setTermById (state : List TermDoc) (t : TermDoc) : List TermDoc :=
  state.map (fun u => if u.id == t.id then t else u)

/-- JavaScript truthiness of the stored timestamp: the guard
`!current.firstCoveredAt` is true for `undefined` and for `0`. -/
def jsFalsyTimestamp : Option Nat → Bool
  | none => true
  | some t => t == 0

/-- The `for (const term of coveredTerms)` loop of `recordAssistantTurn`:
patch exposure count and first-covered timestamp, collecting the
newly-covered term names. -/
def applyCovered (now : Nat) (state : List TermDoc) (newly : List (List Char)) :
    List TermDoc → List TermDoc × List (List Char)
  | [] => (state, newly)
  | term :: rest =>
    match getTermById state term.id with
    | none => applyCovered now state newly rest
    | some current =>
      let exposureCount := current.exposureCount.getD 0 + 1
      let firstCoveredAt := current.firstCoveredAt.getD now
      let updated : TermDoc :=
        { current with exposureCount := some exposureCount, firstCoveredAt := some firstCoveredAt }
      let newly' := if jsFalsyTimestamp current.firstCoveredAt then newly ++ [term.term] else newly
      applyCovered now (setTermById state updated) newly' rest

/-- `Array.from(new Set(xs))`: de-duplicate keeping first occurrences. -/
def dedupKeepFirst (seen : List (List Char)) : List (List Char) → List (List Char)
  | [] => []
  | x :: rest =>
    if x ∈ seen then dedupKeepFirst seen rest
    else x :: dedupKeepFirst (x :: seen) rest

/-- What `recordAssistantTurn` returns to its caller (the fields the claims
read). -/
structure TurnOutcome where
  assistantMessageId : Nat
  assistantCreatedAt : Nat
  termsCovered : List (List Char)
  newlyCoveredTerms : List (List Char)
  phaseProgress : List PhaseProgress
deriving DecidableEq, Repr

/-- `recordAssistantTurn` from `src/convex/mistral.ts`. A Convex `patch`
removes a field patched with `undefined`, so the
`currentPhaseIndex: currentPhaseIndex ?? undefined` patch stores exactly the
computed option, and the session re-read after the patch carries the patched
fields. -/
def recordAssistantTurn (st : SessionState) (body : List Char) (usage : Option MistralUsage)
    (now : Nat) : Except TurnError (TurnOutcome × SessionState) :=
  match cleanString body with
  | none => .error .emptyMessage
  | some assistantBody =>
    let phaseDocs := sortByIndex st.phases
    let covered := detectCoveredTerms assistantBody st.terms
    let coveredTermNames := dedupKeepFirst [] (covered.map (·.term))
    let stepped := applyCovered now st.terms [] covered
    let termState := stepped.1
    let newlyCoveredTerms := stepped.2
    let assistantMessageId := st.nextId
    let message : MessageDoc :=
      { id := assistantMessageId
        role := .assistant
        body := assistantBody
        createdAt := now
        termsCovered := some coveredTermNames
        promptTokens := usage.bind (·.promptTokens)
        completionTokens := usage.bind (·.completionTokens)
        totalTokens := usage.bind (·.totalTokens) }
    let phaseProgressAfter := buildPhaseProgress phaseDocs termState
    let completedTermsCount := (termState.filter (fun t => t.firstCoveredAt.isSome)).length
    let completedPhasesCount := (phaseProgressAfter.filter (·.isComplete)).length
    let currentPhaseIndex := (phaseProgressAfter.find? (fun p => !p.isComplete)).map (·.index)
    let sessionAfter : SessionDoc :=
      { st.session with
        updatedAt := now
        completedTerms := completedTermsCount
        completedPhases := completedPhasesCount
        currentPhaseIndex := currentPhaseIndex }
    .ok
      ({ assistantMessageId := assistantMessageId
         assistantCreatedAt := now
         termsCovered := coveredTermNames
         newlyCoveredTerms := newlyCoveredTerms
         phaseProgress := phaseProgressAfter },
       { st with
         session := sessionAfter
         terms := termState
         messages := st.messages ++ [message]
         nextId := st.nextId + 1 })

/-- A sequence of assistant-turn finalizations; a turn that throws (empty
body) rolls its mutation back and leaves the state unchanged. -/
def runTurns : SessionState → List (List Char × Option MistralUsage × Nat) → SessionState
  | st, [] => st
  | st, (body, usage, now) :: rest =>
    match recordAssistantTurn st body usage now with
    | .ok (_, st') => runTurns st' rest
    | .error _ => runTurns st rest

/-! ## LLM Gateway (`callMistral`) -/

/-- `MAX_RETRIES` from `src/convex/mistral.ts`. -/
def MAX_RETRIES : Nat := 2

/-- `BASE_BACKOFF_MS` from `src/convex/mistral.ts`. -/
def BASE_BACKOFF_MS : Nat := 400

/-- `RETRYABLE_STATUS` from `src/convex/mistral.ts`. -/
def RETRYABLE_STATUS : Nat := 429

/-- Errors thrown by `callMistral` (`ConvexError` codes). -/
inductive MistralError where
  | apiKeyNotConfigured
  | requestFailed
  | invalidJson
  | emptyResponse
deriving DecidableEq, Repr

/-- One HTTP response from the completion endpoint: its status, whether its
body text parses as JSON, and the content/usage fields found in the parsed
body. -/
structure HttpResponse where
  status : Nat
  jsonValid : Bool
  content : Option (List Char)
  usage : MistralUsage
deriving DecidableEq, Repr

/-- JavaScript `response.ok`: status in the 2xx range. -/
def respOk (r : HttpResponse) : Bool :=
  decide (200 ≤ r.status) && decide (r.status < 300)

/-- A successful `callMistral` result. -/
structure MistralSuccess where
  content : List Char
  usage : MistralUsage
deriving DecidableEq, Repr

/-- The `while (attempt <= MAX_RETRIES)` loop of `callMistral`: `responses`
gives the response fetched on each attempt, `fuel` is
`MAX_RETRIES + 1 - attempt` (the number of iterations the guard still
allows). Alongside the result, the list of backoff delays slept is
returned. -/
def callMistralLoop (responses : Nat → HttpResponse) :
    Nat → Nat → Except MistralError MistralSuccess × List Nat
  | _, 0 => (.error .requestFailed, [])
  | attempt, fuel + 1 =>
    let r := responses attempt
    if respOk r then
      if r.jsonValid then
        match r.content with
        | some c => (.ok ⟨c, r.usage⟩, [])
        | none => (.error .emptyResponse, [])
      else (.error .invalidJson, [])
    else
      if r.status = RETRYABLE_STATUS ∧ attempt < MAX_RETRIES then
        let rec_ := callMistralLoop responses (attempt + 1) fuel
        (rec_.1, BASE_BACKOFF_MS * 2 ^ attempt :: rec_.2)
      else (.error .requestFailed, [])

/-- `callMistral` from `src/convex/mistral.ts`: fail fast without an API
key, otherwise run the retry loop from attempt 0. -/
def callMistral (hasApiKey : Bool) (responses : Nat → HttpResponse) :
    Except MistralError MistralSuccess × List Nat :=
  if hasApiKey then callMistralLoop responses 0 (MAX_RETRIES + 1)
  else (.error .apiKeyNotConfigured, [])

/-! ## Follow-Up Suggestion Engine -/

/-- A follow-up suggestion as handled in memory. -/
structure FollowUpSuggestion where
  prompt : List Char
  rationale : Option (List Char)
deriving DecidableEq, Repr

/-- JavaScript `value.endsWith('?')`. -/
def endsWithQmark (l : List Char) : Bool := l.getLast? == some '?'

/-- `normaliseFollowUpPrompt` from `src/convex/mistral.ts`: clean, collapse
whitespace, force a trailing question mark. -/
def normaliseFollowUpPrompt (value : List Char) : Option (List Char) :=
  match cleanString value with
  | none => none
  | some cleaned =>
    let collapsed := collapseWhitespace cleaned
    some (if endsWithQmark collapsed then collapsed else collapsed ++ ['?'])

/-- One entry of the parsed `prompts` array: either not an object, or an
object whose `prompt`/`rationale` string fields may be absent. -/
inductive RawEntry where
  | notObject
  | entry (prompt : Option (List Char)) (rationale : Option (List Char))
deriving DecidableEq, Repr

/-- The collection loop of `normaliseFollowUpSuggestions`; `slots` counts
down from 3, because the source breaks as soon as three suggestions have
been pushed. -/
def collectSuggestions : List RawEntry → List (List Char) → Nat → List FollowUpSuggestion
  | [], _, _ => []
  | _ :: _, _, 0 => []
  | e :: rest, seen, Nat.succ slots =>
    match e with
    | .notObject => collectSuggestions rest seen (Nat.succ slots)
    | .entry p r =>
      match p.bind normaliseFollowUpPrompt with
      | none => collectSuggestions rest seen (Nat.succ slots)
      | some prompt =>
        if lowerStr prompt ∈ seen then collectSuggestions rest seen (Nat.succ slots)
        else
          { prompt := prompt, rationale := r.bind cleanString } ::
            collectSuggestions rest (lowerStr prompt :: seen) slots

/-- `normaliseFollowUpSuggestions` from `src/convex/mistral.ts`; `none`
models a payload that is not an object carrying a `prompts` array. -/
def normaliseFollowUpSuggestions (payload : Option (List RawEntry)) : List FollowUpSuggestion :=
  collectSuggestions (payload.getD []) [] 3

/-- The `uniqueRemainingTerms` loop of `ensureFollowUpCount`: clean each
term and drop case-insensitive duplicates. -/
def uniqueCleanTerms : List (List Char) → List (List Char) → List (List Char)
  | [], _ => []
  | t :: rest, seenTerms =>
    match cleanString t with
    | none => uniqueCleanTerms rest seenTerms
    | some cleaned =>
      if lowerStr cleaned ∈ seenTerms then uniqueCleanTerms rest seenTerms
      else cleaned :: uniqueCleanTerms rest (lowerStr cleaned :: seenTerms)

/-- The templated backfill prompt \`Can we explore "${term}" next\`. -/
def followUpTemplate (t : List Char) : List Char :=
  "Can we explore \"".data ++ t ++ "\" next".data

/-- The templated backfill rationale. -/
def followUpRationaleText (t : List Char) : List Char :=
  "Reinforces the remaining key term \"".data ++ t ++ "\".".data

/-- The `for (const term of uniqueRemainingTerms)` backfill loop of
`ensureFollowUpCount`; returns the grown result list and `seen` set. -/
def addTermPrompts (targetCount : Nat) :
    List (List Char) → List FollowUpSuggestion → List (List Char) →
      List FollowUpSuggestion × List (List Char)
  | [], result, seen => (result, seen)
  | t :: rest, result, seen =>
    if targetCount ≤ result.length then (result, seen)
    else
      match normaliseFollowUpPrompt (followUpTemplate t) with
      | none => addTermPrompts targetCount rest result seen
      | some prompt =>
        if lowerStr prompt ∈ seen then addTermPrompts targetCount rest result seen
        else
          addTermPrompts targetCount rest
            (result ++ [{ prompt := prompt, rationale := some (followUpRationaleText t) }])
            (lowerStr prompt :: seen)

/-- The fixed `genericFallbacks` pool of `ensureFollowUpCount`. -/
def genericFallbacks : List (List Char × List Char) :=
  [("What should I practise next to keep making progress".data,
    "Keeps the learner focused when no specific key terms remain.".data),
   ("Could you suggest an example so I can apply this now".data,
    "Encourages immediate application of the latest concept.".data)]

/-- The `for (const fallback of genericFallbacks)` loop of
`ensureFollowUpCount`. -/
def addGenericPrompts (targetCount : Nat) :
    List (List Char × List Char) → List FollowUpSuggestion → List (List Char) →
      List FollowUpSuggestion × List (List Char)
  | [], result, seen => (result, seen)
  | fb :: rest, result, seen =>
    if targetCount ≤ result.length then (result, seen)
    else
      match normaliseFollowUpPrompt fb.1 with
      | none => addGenericPrompts targetCount rest result seen
      | some prompt =>
        if lowerStr prompt ∈ seen then addGenericPrompts targetCount rest result seen
        else
          addGenericPrompts targetCount rest
            (result ++ [{ prompt := prompt, rationale := some fb.2 }])
            (lowerStr prompt :: seen)

/-- `ensureFollowUpCount` from `src/convex/mistral.ts`. -/
def ensureFollowUpCount (suggestions : List FollowUpSuggestion)
    (remainingTerms : List (List Char)) (targetCount : Nat) : List FollowUpSuggestion :=
  if targetCount ≤ suggestions.length then suggestions.take targetCount
  else
    let seen := suggestions.map (fun s => lowerStr s.prompt)
    let uniqueRemainingTerms := uniqueCleanTerms remainingTerms []
    let afterTerms := addTermPrompts targetCount uniqueRemainingTerms suggestions seen
    let result2 :=
      if afterTerms.1.length < targetCount then
        (addGenericPrompts targetCount genericFallbacks afterTerms.1 afterTerms.2).1
      else afterTerms.1
    result2.take targetCount

/-- A failure of the follow-up generation step: the LLM call threw, or its
reply did not parse as JSON. -/
inductive GenError where
  | transport (e : MistralError)
  | parseFailure
deriving DecidableEq, Repr

/-- `generateFollowUpSuggestions` from `src/convex/mistral.ts`: the whole
body sits in a `try/catch`, so a transport error or a JSON-parse failure
yields zero suggestions. The LLM interaction is abstracted as its
outcome. -/
def generateFollowUpSuggestions (outcome : Except GenError (Option (List RawEntry))) :
    List FollowUpSuggestion :=
  match outcome with
  | .error _ => []
  | .ok payload => normaliseFollowUpSuggestions payload

/-- The insertion loop of `replaceSessionFollowUps`: store the batch with
fresh ids, no `usedAt`, all tagged with the generating message. -/
def insertFollowUps (sessionId generatedForMessageId createdAt : Nat) :
    List FollowUpSuggestion → Nat → List FollowUpDoc
  | [], _ => []
  | s :: rest, nid =>
    { id := nid
      sessionId := sessionId
      generatedForMessageId := generatedForMessageId
      prompt := s.prompt
      rationale := s.rationale
      createdAt := createdAt
      usedAt := none } :: insertFollowUps sessionId generatedForMessageId createdAt rest (nid + 1)

/-- The `replaceSessionFollowUps` mutation: delete the session's unused
follow-ups, keep everything else, insert the new batch. -/
def replaceSessionFollowUps (table : List FollowUpDoc) (sessionId generatedForMessageId : Nat)
    (suggestions : List FollowUpSuggestion) (createdAt nextId : Nat) : List FollowUpDoc :=
  table.filter (fun f => !(f.sessionId == sessionId && f.usedAt.isNone)) ++
    insertFollowUps sessionId generatedForMessageId createdAt suggestions nextId

/-- `refreshFollowUpSuggestions` from `src/convex/mistral.ts`: flatten the
remaining terms, generate (outcome abstracted), top the batch up to three,
and replace the stored batch. The one-second courtesy sleep has no state
effect. -/
def refreshFollowUpSuggestions (st : SessionState)
    (outcome : Except GenError (Option (List RawEntry))) (phaseProgress : List PhaseProgress)
    (assistantMessageId assistantCreatedAt : Nat) : SessionState :=
  let remainingTerms := (phaseProgress.map (·.remainingTerms)).flatten
  let suggestions := generateFollowUpSuggestions outcome
  let completedSuggestions := ensureFollowUpCount suggestions remainingTerms 3
  { st with
    followUps :=
      replaceSessionFollowUps st.followUps st.sessionId assistantMessageId
        completedSuggestions assistantCreatedAt st.nextId
    nextId := st.nextId + completedSuggestions.length }

/-! ## Turn finalization and session introduction -/

instance : DecidableRel (fun (a b : MessageDoc) => a.createdAt ≤ b.createdAt) :=
  fun a b => Nat.decLe a.createdAt b.createdAt

/-- Stable sort of a session's messages by creation time (the
`by_session_createdAt` index order). -/
def sortByCreatedAt (msgs : List MessageDoc) : List MessageDoc :=
  List.insertionSort (fun a b => a.createdAt ≤ b.createdAt) msgs

/-- The transcript loaded by `getSessionContextForTurn`: the latest 40
messages, oldest first. -/
def recentTranscript (msgs : List MessageDoc) : List MessageDoc :=
  (((sortByCreatedAt msgs).reverse).take 40).reverse

/-- What `finalizeSessionTurn` returns (the fields the claims read). -/
structure SessionTurnResult where
  sessionAfter : SessionDoc
  userMessageId : Nat
  assistantMessageId : Nat
  newlyCoveredTerms : List (List Char)
  phaseProgress : List PhaseProgress
deriving DecidableEq, Repr

/-- `finalizeSessionTurnForUser` from `src/convex/mistral.ts`: record the
assistant turn, refresh the follow-up batch (generation outcome
abstracted), and look the user message up in the re-fetched transcript. -/
def finalizeSessionTurn (st : SessionState) (userMessageId : Nat) (assistantBody : List Char)
    (usage : Option MistralUsage) (outcome : Except GenError (Option (List RawEntry)))
    (now : Nat) : Except TurnError (SessionTurnResult × SessionState) :=
  match cleanString assistantBody with
  | none => .error .emptyMessage
  | some cleanedBody =>
    match recordAssistantTurn st cleanedBody usage now with
    | .error e => .error e
    | .ok (turn, st1) =>
      let transcriptAfter := recentTranscript st1.messages
      let st2 :=
        refreshFollowUpSuggestions st1 outcome turn.phaseProgress turn.assistantMessageId
          turn.assistantCreatedAt
      match transcriptAfter.find?
          (fun m => m.id == userMessageId && decide (m.role = MessageRole.user)) with
      | none => .error .userMessageNotFound
      | some _ =>
        .ok
          ({ sessionAfter := st2.session
             userMessageId := userMessageId
             assistantMessageId := turn.assistantMessageId
             newlyCoveredTerms := turn.newlyCoveredTerms
             phaseProgress := turn.phaseProgress },
           st2)

/-- What `startSessionIntroduction` reports. -/
structure IntroResult where
  alreadyInitialized : Bool
deriving DecidableEq, Repr

/-- Errors surfaced by `startSessionIntroduction`. -/
inductive IntroError where
  | mistral (e : MistralError)
  | turn (e : TurnError)
deriving DecidableEq, Repr

/-- `startSessionIntroduction` from `src/convex/mistral.ts`: no-op when the
transcript already has messages; otherwise generate a welcome (abstracted by
`llm`), record it as the first assistant turn, and seed the follow-up
batch. Thrown errors leave the store untouched, since nothing is written
before the failing step. -/
def startSessionIntroduction (st : SessionState)
    (llm : Except MistralError (List Char × Option MistralUsage))
    (outcome : Except GenError (Option (List RawEntry))) (now : Nat) :
    Except IntroError (IntroResult × SessionState) :=
  let transcript := recentTranscript st.messages
  if 0 < transcript.length then .ok ({ alreadyInitialized := true }, st)
  else
    match llm with
    | .error e => .error (.mistral e)
    | .ok (content, usage) =>
      let assistantBody := jsTrim content
      match recordAssistantTurn st assistantBody usage now with
      | .error e => .error (.turn e)
      | .ok (turn, st1) =>
        let st2 :=
          refreshFollowUpSuggestions st1 outcome turn.phaseProgress turn.assistantMessageId
            turn.assistantCreatedAt
        .ok ({ alreadyInitialized := false }, st2)

/-! ## Basic lemmas -/

lemma normaliseForMatching_nil : normaliseForMatching [] = [] := rfl

lemma sortStrings_length (l : List (List Char)) : (sortStrings l).length = l.length :=
  (List.perm_insertionSort _ l).length_eq

/-! ## Claim C4 -/

/-- Claim C4, counterexample: the term `"(abc)"` starts with a parenthesis,
so the portion before the parenthetical is empty and — by the claim — it
should never match; but the code falls back to the whole term
(`candidate.split('(')[0] || candidate`) and does report it as mentioned in
the text `"abc"`. -/
theorem c4_counterexample :
    detectCoveredTerms "abc".data [⟨0, 0, "(abc)".data, none, none⟩] =
        [⟨0, 0, "(abc)".data, none, none⟩] ∧
      detectCoveredTermsSpec "abc".data [⟨0, 0, "(abc)".data, none, none⟩] = [] := by
  decide

/-- Claim C4 (amended): `detectCoveredTerms` normalises (NFD, diacritic
stripping, lowercasing, non-letter/non-digit characters to spaces,
whitespace collapsing) and reports a term as mentioned iff the normalised
form of the portion of the term before any parenthetical — or of the whole
trimmed term, when that portion is empty — is non-empty and occurs as a
contiguous substring of the normalised text. -/
theorem c4_theorem (body : List Char) (terms : List TermDoc) :
    detectCoveredTerms body terms = detectCoveredTermsAmended body terms := by
  simp only [detectCoveredTerms, detectCoveredTermsAmended]
  apply List.filter_congr
  intro term _
  by_cases h : jsTrim term.term = []
  · simp [h, normaliseForMatching_nil]
  · simp [h]

/-! ## Claim C3 -/

/-- Claim C3: `buildPhaseProgress` marks a phase complete iff it has at
least one term and every one of its terms has `firstCoveredAt` set; in
particular a phase with zero terms is never complete. -/
theorem c3_theorem (phases : List PhaseDoc) (termState : List TermDoc) (p : PhaseProgress)
    (hp : p ∈ buildPhaseProgress phases termState) :
    (p.isComplete = true ↔
        termState.filter (fun t => t.phaseIndex == p.index) ≠ [] ∧
          ∀ t ∈ termState.filter (fun t => t.phaseIndex == p.index),
            t.firstCoveredAt.isSome = true) ∧
      (termState.filter (fun t => t.phaseIndex == p.index) = [] → p.isComplete = false) := by
  rcases List.mem_map.1 hp with ⟨phase, hmem, rfl⟩
  have hidx : (phaseProgressOf termState phase).index = phase.index := rfl
  constructor
  · simp only [phaseProgressOf, hidx, Bool.and_eq_true, decide_eq_true_eq, sortStrings_length,
      List.length_map, List.length_eq_zero, List.filter_eq_nil_iff]
    constructor
    · rintro ⟨hpos, hnone⟩
      refine ⟨List.ne_nil_of_length_pos hpos, fun t ht => ?_⟩
      have := hnone t ht
      cases hfc : t.firstCoveredAt with
      | none => exact absurd (by simp [Option.isNone, hfc]) this
      | some v => simp [Option.isSome, hfc]
    · rintro ⟨hne, hall⟩
      refine ⟨List.length_pos_of_ne_nil hne, fun t ht => ?_⟩
      have := hall t ht
      cases hfc : t.firstCoveredAt with
      | none => simp [Option.isSome, hfc] at this
      | some v => simp [Option.isNone, hfc]
  · intro hnil
    have hlen : (termState.filter (fun t => t.phaseIndex == phase.index)).length = 0 := by
      rw [hidx] at hnil
      simp [hnil]
    show (decide (0 < (termState.filter (fun t => t.phaseIndex == phase.index)).length) && _) = false
    simp [hlen]

/-- Witness for C3 on a concrete session: one phase with one covered term. -/
theorem c3_witness :
    phaseProgressOf [⟨1, 0, "mitosis".data, some 5, some 1⟩] ⟨0, 0, "Basics".data, "o".data⟩ ∈
        buildPhaseProgress [⟨0, 0, "Basics".data, "o".data⟩]
          [⟨1, 0, "mitosis".data, some 5, some 1⟩] ∧
      (phaseProgressOf [⟨1, 0, "mitosis".data, some 5, some 1⟩]
          ⟨0, 0, "Basics".data, "o".data⟩).isComplete = true :=
  ⟨by decide,
    (c3_theorem [⟨0, 0, "Basics".data, "o".data⟩] [⟨1, 0, "mitosis".data, some 5, some 1⟩]
        (phaseProgressOf [⟨1, 0, "mitosis".data, some 5, some 1⟩]
          ⟨0, 0, "Basics".data, "o".data⟩) (by decide)).1.mpr ⟨by decide, by decide⟩⟩

/-! ## Claim C10 -/

/-- Claim C10: with an empty model-suggestion list and no usable remaining
terms, `ensureFollowUpCount` with target 3 returns exactly the two generic
fallback prompts — a stored batch can therefore be smaller than the
3-suggestion target. -/
theorem c10_theorem (remainingTerms : List (List Char))
    (h : uniqueCleanTerms remainingTerms [] = []) :
    ensureFollowUpCount [] remainingTerms 3 =
        [⟨"What should I practise next to keep making progress?".data,
          some "Keeps the learner focused when no specific key terms remain.".data⟩,
         ⟨"Could you suggest an example so I can apply this now?".data,
          some "Encourages immediate application of the latest concept.".data⟩] ∧
      (ensureFollowUpCount [] remainingTerms 3).length = 2 := by
  have : ensureFollowUpCount [] remainingTerms 3 =
      ensureFollowUpCount [] ([] : List (List Char)) 3 := by
    simp only [ensureFollowUpCount, h]
    rfl
  rw [this]
  decide

/-- Witness for C10: whitespace-only remaining terms are unusable. -/
theorem c10_witness :
    uniqueCleanTerms [" ".data, "".data] [] = [] ∧
      (ensureFollowUpCount [] [" ".data, "".data] 3).length = 2 :=
  ⟨by decide, ( c10_theorem [" ".data, "".data] (by decide)).2⟩

/-! ## Claim C7 -/

lemma callMistralLoop_delays (responses : Nat → HttpResponse) :
    ∀ fuel attempt,
      ∃ k,
        (callMistralLoop responses attempt fuel).2 =
            (List.range k).map (fun i => BASE_BACKOFF_MS * 2 ^ (attempt + i)) ∧
          (attempt + k ≤ MAX_RETRIES ∨ k = 0) ∧
          ∀ i < k, (responses (attempt + i)).status = RETRYABLE_STATUS := by
  intro fuel
  induction fuel with
  | zero => exact fun attempt => ⟨0, rfl, Or.inr rfl, by omega⟩
  | succ n ih =>
    intro attempt
    simp only [callMistralLoop]
    by_cases hok : respOk (responses attempt) = true
    · rw [if_pos hok]
      refine ⟨0, ?_, Or.inr rfl, by omega⟩
      cases (responses attempt).jsonValid <;> cases (responses attempt).content <;> simp
    · rw [if_neg hok]
      by_cases hretry : (responses attempt).status = RETRYABLE_STATUS ∧ attempt < MAX_RETRIES
      · rw [if_pos hretry]
        obtain ⟨k, hd, hb, hs⟩ := ih (attempt + 1)
        refine ⟨k + 1, ?_, Or.inl ?_, ?_⟩
        · rw [List.range_succ_eq_map, List.map_cons, List.map_map]
          refine congrArg₂ List.cons (by rw [Nat.add_zero]) ?_
          rw [hd]
          refine List.map_congr_left fun i _ => ?_
          simp only [Function.comp_apply, Nat.succ_eq_add_one]
          have e : attempt + 1 + i = attempt + (i + 1) := by omega
          rw [e]
        · rcases hb with hb | hb
          · omega
          · omega
        · intro i hi
          cases i with
          | zero => simpa using hretry.1
          | succ j =>
            have := hs j (by omega)
            simpa [Nat.add_comm, Nat.add_assoc, Nat.add_left_comm] using this
      · rw [if_neg hretry]
        exact ⟨0, rfl, Or.inr rfl, by omega⟩

/-- Claim C7: `callMistral` retries only on HTTP 429, at most
`MAX_RETRIES = 2` additional attempts, with exponential backoff whose base
delay doubles each attempt; any other non-success status fails immediately;
429 twice then 200 returns the successful content; 429 three times raises
the request-failed error. -/
theorem c7_theorem :
    (∀ responses : Nat → HttpResponse,
        respOk (responses 0) = false → (responses 0).status ≠ RETRYABLE_STATUS →
        callMistral true responses = (.error .requestFailed, [])) ∧
    (∀ responses : Nat → HttpResponse,
        (callMistral true responses).2.length ≤ MAX_RETRIES ∧
        (callMistral true responses).2 =
            (List.range (callMistral true responses).2.length).map
              (fun i => BASE_BACKOFF_MS * 2 ^ i) ∧
        ∀ i < (callMistral true responses).2.length,
          (responses i).status = RETRYABLE_STATUS) ∧
    (∀ (responses : Nat → HttpResponse) (c : List Char) (u : MistralUsage),
        (responses 0).status = RETRYABLE_STATUS → (responses 1).status = RETRYABLE_STATUS →
        responses 2 = ⟨200, true, some c, u⟩ →
        callMistral true responses = (.ok ⟨c, u⟩, [400, 800])) ∧
    (∀ responses : Nat → HttpResponse,
        (responses 0).status = RETRYABLE_STATUS → (responses 1).status = RETRYABLE_STATUS →
        (responses 2).status = RETRYABLE_STATUS →
        callMistral true responses = (.error .requestFailed, [400, 800])) := by
  have h429ok : ∀ r : HttpResponse, r.status = RETRYABLE_STATUS → respOk r = false := by
    intro r h
    simp [respOk, h, RETRYABLE_STATUS]
  refine ⟨?_, ?_, ?_, ?_⟩
  · intro responses hok hst
    simp only [callMistral, if_pos, callMistralLoop]
    rw [if_neg (by simp [hok]), if_neg (by rintro ⟨h1, _⟩; exact hst h1)]
  · intro responses
    obtain ⟨k, hd, hb, hs⟩ := callMistralLoop_delays responses (MAX_RETRIES + 1) 0
    have hcall : (callMistral true responses).2 = (callMistralLoop responses 0 (MAX_RETRIES + 1)).2 := by
      simp [callMistral]
    have hk : (callMistral true responses).2.length = k := by
      simp [hcall, hd]
    refine ⟨?_, ?_, ?_⟩
    · rw [hk]
      rcases hb with hb | hb <;> omega
    · rw [hk, hcall, hd]
      simp
    · intro i hi
      rw [hk] at hi
      simpa using hs i hi
  · intro responses c u h0 h1 h2
    have hst2 : (responses 2) = ⟨200, true, some c, u⟩ := h2
    simp only [callMistral, if_pos, callMistralLoop]
    rw [if_neg (by simp [h429ok _ h0]), if_pos ⟨h0, by decide⟩]
    rw [if_neg (by simp [h429ok _ h1]), if_pos ⟨h1, by decide⟩]
    rw [hst2]
    simp only [respOk]
    norm_num
    exact ⟨rfl, rfl⟩
  · intro responses h0 h1 h2
    simp only [callMistral, if_pos, callMistralLoop]
    rw [if_neg (by simp [h429ok _ h0]), if_pos ⟨h0, by decide⟩]
    rw [if_neg (by simp [h429ok _ h1]), if_pos ⟨h1, by decide⟩]
    rw [if_neg (by simp [h429ok _ h2]), if_neg (by rintro ⟨_, h⟩; exact absurd h (by decide))]
    decide

/-- Witness for C7: two rate-limit responses followed by a success yield the
successful content after backoffs of 400 ms and 800 ms. -/
theorem c7_witness :
    callMistral true
        (fun i =>
          if i < 2 then ⟨429, true, none, ⟨none, none, none⟩⟩
          else ⟨200, true, some "ok".data, ⟨none, none, none⟩⟩) =
      (.ok ⟨"ok".data, ⟨none, none, none⟩⟩, [400, 800]) :=
  c7_theorem.2.2.1
    (fun i =>
      if i < 2 then ⟨429, true, none, ⟨none, none, none⟩⟩
      else ⟨200, true, some "ok".data, ⟨none, none, none⟩⟩)
    "ok".data ⟨none, none, none⟩ (by decide) (by decide) (by decide)

/-! ## Follow-up engine lemmas -/

lemma normaliseFollowUpPrompt_endsQ {v p : List Char}
    (h : normaliseFollowUpPrompt v = some p) : endsWithQmark p = true := by
  unfold normaliseFollowUpPrompt at h
  cases hc : cleanString v with
  | none => rw [hc] at h; exact absurd h (by simp)
  | some cleaned =>
    rw [hc] at h
    simp only [Option.some.injEq] at h
    subst h
    by_cases hq : endsWithQmark (collapseWhitespace cleaned) = true
    · rw [if_pos hq]; exact hq
    · rw [if_neg hq]
      simp [endsWithQmark, List.getLast?_concat]

lemma collectSuggestions_invariant :
    ∀ (entries : List RawEntry) (seen : List (List Char)) (slots : Nat),
      (∀ s ∈ collectSuggestions entries seen slots, endsWithQmark s.prompt = true) ∧
        ((collectSuggestions entries seen slots).map (fun s => lowerStr s.prompt)).Nodup ∧
        (∀ s ∈ collectSuggestions entries seen slots, lowerStr s.prompt ∉ seen) ∧
        (collectSuggestions entries seen slots).length ≤ slots := by
  intro entries
  induction entries with
  | nil => intro seen slots; simp [collectSuggestions]
  | cons e rest ih =>
    intro seen slots
    cases slots with
    | zero => simp [collectSuggestions]
    | succ n =>
      cases e with
      | notObject => simpa [collectSuggestions] using ih seen (n + 1)
      | entry p r =>
        cases hp : p.bind normaliseFollowUpPrompt with
        | none => simpa [collectSuggestions, hp] using ih seen (n + 1)
        | some prompt =>
          by_cases hmem : lowerStr prompt ∈ seen
          · simpa [collectSuggestions, hp, hmem] using ih seen (n + 1)
          · have hends : endsWithQmark prompt = true := by
              cases p with
              | none => exact absurd hp (by simp)
              | some v => exact normaliseFollowUpPrompt_endsQ (by simpa using hp)
            obtain ⟨ihE, ihN, ihS, ihL⟩ := ih (lowerStr prompt :: seen) n
            simp only [collectSuggestions, hp, if_neg hmem]
            refine ⟨?_, ?_, ?_, ?_⟩
            · intro s hs
              rcases List.mem_cons.1 hs with rfl | hs
              · exact hends
              · exact ihE s hs
            · simp only [List.map_cons, List.nodup_cons]
              exact ⟨fun hc => by
                rcases List.mem_map.1 hc with ⟨s, hs, hsig⟩
                exact (ihS s hs) (hsig ▸ List.mem_cons_self _ _), ihN⟩
            · intro s hs
              rcases List.mem_cons.1 hs with rfl | hs
              · exact hmem
              · exact fun hc => (ihS s hs) (List.mem_cons_of_mem _ hc)
            · simpa [Nat.succ_le_succ_iff] using ihL

lemma addTermPrompts_spec :
    ∀ (terms : List (List Char)) (result : List FollowUpSuggestion) (seen : List (List Char))
      (target : Nat),
      ∃ d : List FollowUpSuggestion,
        (addTermPrompts target terms result seen).1 = result ++ d ∧
          (addTermPrompts target terms result seen).2 =
            (d.map (fun s => lowerStr s.prompt)).reverse ++ seen ∧
          (∀ s ∈ d, endsWithQmark s.prompt = true) ∧
          (d.map (fun s => lowerStr s.prompt)).Nodup ∧
          (∀ s ∈ d, lowerStr s.prompt ∉ seen) := by
  intro terms
  induction terms with
  | nil => intro result seen target; exact ⟨[], by simp [addTermPrompts], by simp [addTermPrompts], by simp, by simp, by simp⟩
  | cons t rest ih =>
    intro result seen target
    by_cases hfull : target ≤ result.length
    · exact ⟨[], by simp [addTermPrompts, hfull], by simp [addTermPrompts, hfull], by simp, by simp, by simp⟩
    · cases hp : normaliseFollowUpPrompt (followUpTemplate t) with
      | none =>
        obtain ⟨d, h1, h2, h3, h4, h5⟩ := ih result seen target
        exact ⟨d, by simp [addTermPrompts, hfull, hp, h1], by simp [addTermPrompts, hfull, hp, h2],
          h3, h4, h5⟩
      | some prompt =>
        by_cases hmem : lowerStr prompt ∈ seen
        · obtain ⟨d, h1, h2, h3, h4, h5⟩ := ih result seen target
          exact ⟨d, by simp [addTermPrompts, hfull, hp, hmem, h1],
            by simp [addTermPrompts, hfull, hp, hmem, h2], h3, h4, h5⟩
        · obtain ⟨d, h1, h2, h3, h4, h5⟩ :=
            ih (result ++ [⟨prompt, some (followUpRationaleText t)⟩]) (lowerStr prompt :: seen)
              target
          refine ⟨⟨prompt, some (followUpRationaleText t)⟩ :: d, ?_, ?_, ?_, ?_, ?_⟩
          · simp only [addTermPrompts, if_neg hfull, hp, if_neg hmem, h1, List.append_assoc,
              List.singleton_append]
          · simp only [addTermPrompts, if_neg hfull, hp, if_neg hmem, h2, List.map_cons,
              List.reverse_cons, List.append_assoc, List.singleton_append]
          · intro s hs
            rcases List.mem_cons.1 hs with rfl | hs
            · exact normaliseFollowUpPrompt_endsQ hp
            · exact h3 s hs
          · simp only [List.map_cons, List.nodup_cons]
            exact ⟨fun hc => by
              rcases List.mem_map.1 hc with ⟨s, hs, hsig⟩
              exact (h5 s hs) (hsig ▸ List.mem_cons_self _ _), h4⟩
          · intro s hs
            rcases List.mem_cons.1 hs with rfl | hs
            · exact hmem
            · exact fun hc => (h5 s hs) (List.mem_cons_of_mem _ hc)

lemma addGenericPrompts_spec :
    ∀ (pool : List (List Char × List Char)) (result : List FollowUpSuggestion)
      (seen : List (List Char)) (target : Nat),
      ∃ d : List FollowUpSuggestion,
        (addGenericPrompts target pool result seen).1 = result ++ d ∧
          (addGenericPrompts target pool result seen).2 =
            (d.map (fun s => lowerStr s.prompt)).reverse ++ seen ∧
          (∀ s ∈ d, endsWithQmark s.prompt = true) ∧
          (d.map (fun s => lowerStr s.prompt)).Nodup ∧
          (∀ s ∈ d, lowerStr s.prompt ∉ seen) := by
  intro pool
  induction pool with
  | nil => intro result seen target; exact ⟨[], by simp [addGenericPrompts], by simp [addGenericPrompts], by simp, by simp, by simp⟩
  | cons fb rest ih =>
    intro result seen target
    by_cases hfull : target ≤ result.length
    · exact ⟨[], by simp [addGenericPrompts, hfull], by simp [addGenericPrompts, hfull], by simp,
        by simp, by simp⟩
    · cases hp : normaliseFollowUpPrompt fb.1 with
      | none =>
        obtain ⟨d, h1, h2, h3, h4, h5⟩ := ih result seen target
        exact ⟨d, by simp [addGenericPrompts, hfull, hp, h1],
          by simp [addGenericPrompts, hfull, hp, h2], h3, h4, h5⟩
      | some prompt =>
        by_cases hmem : lowerStr prompt ∈ seen
        · obtain ⟨d, h1, h2, h3, h4, h5⟩ := ih result seen target
          exact ⟨d, by simp [addGenericPrompts, hfull, hp, hmem, h1],
            by simp [addGenericPrompts, hfull, hp, hmem, h2], h3, h4, h5⟩
        · obtain ⟨d, h1, h2, h3, h4, h5⟩ :=
            ih (result ++ [⟨prompt, some fb.2⟩]) (lowerStr prompt :: seen) target
          refine ⟨⟨prompt, some fb.2⟩ :: d, ?_, ?_, ?_, ?_, ?_⟩
          · simp only [addGenericPrompts, if_neg hfull, hp, if_neg hmem, h1, List.append_assoc,
              List.singleton_append]
          · simp only [addGenericPrompts, if_neg hfull, hp, if_neg hmem, h2, List.map_cons,
              List.reverse_cons, List.append_assoc, List.singleton_append]
          · intro s hs
            rcases List.mem_cons.1 hs with rfl | hs
            · exact normaliseFollowUpPrompt_endsQ hp
            · exact h3 s hs
          · simp only [List.map_cons, List.nodup_cons]
            exact ⟨fun hc => by
              rcases List.mem_map.1 hc with ⟨s, hs, hsig⟩
              exact (h5 s hs) (hsig ▸ List.mem_cons_self _ _), h4⟩
          · intro s hs
            rcases List.mem_cons.1 hs with rfl | hs
            · exact hmem
            · exact fun hc => (h5 s hs) (List.mem_cons_of_mem _ hc)

lemma ensureFollowUpCount_props (suggestions : List FollowUpSuggestion)
    (remaining : List (List Char)) (target : Nat)
    (hE : ∀ s ∈ suggestions, endsWithQmark s.prompt = true)
    (hN : (suggestions.map (fun s => lowerStr s.prompt)).Nodup) :
    (∀ s ∈ ensureFollowUpCount suggestions remaining target, endsWithQmark s.prompt = true) ∧
      ((ensureFollowUpCount suggestions remaining target).map
        (fun s => lowerStr s.prompt)).Nodup ∧
      (ensureFollowUpCount suggestions remaining target).length ≤ target := by
  have takeProps :
      ∀ l : List FollowUpSuggestion,
        (∀ s ∈ l, endsWithQmark s.prompt = true) →
        ((l.map (fun s => lowerStr s.prompt)).Nodup) →
        (∀ s ∈ l.take target, endsWithQmark s.prompt = true) ∧
          ((l.take target).map (fun s => lowerStr s.prompt)).Nodup ∧
          (l.take target).length ≤ target := by
    intro l hlE hlN
    refine ⟨fun s hs => hlE s (List.take_subset _ _ hs), ?_, List.length_take_le _ _⟩
    rw [List.map_take]
    exact hlN.sublist (List.take_sublist _ _)
  by_cases hfull : target ≤ suggestions.length
  · simp only [ensureFollowUpCount, if_pos hfull]
    exact takeProps suggestions hE hN
  · simp only [ensureFollowUpCount, if_neg hfull]
    obtain ⟨d, h1, h2, h3, h4, h5⟩ :=
      addTermPrompts_spec (uniqueCleanTerms remaining []) suggestions
        (suggestions.map (fun s => lowerStr s.prompt)) target
    have hr1E : ∀ s ∈ (addTermPrompts target (uniqueCleanTerms remaining []) suggestions
        (suggestions.map (fun s => lowerStr s.prompt))).1, endsWithQmark s.prompt = true := by
      rw [h1]
      intro s hs
      rcases List.mem_append.1 hs with hs | hs
      · exact hE s hs
      · exact h3 s hs
    have hr1N : ((addTermPrompts target (uniqueCleanTerms remaining []) suggestions
        (suggestions.map (fun s => lowerStr s.prompt))).1.map
          (fun s => lowerStr s.prompt)).Nodup := by
      rw [h1, List.map_append, List.nodup_append]
      refine ⟨hN, h4, fun a ha hb => ?_⟩
      rcases List.mem_map.1 hb with ⟨s, hs, rfl⟩
      exact h5 s hs ha
    have hr1seen : ∀ s ∈ (addTermPrompts target (uniqueCleanTerms remaining []) suggestions
        (suggestions.map (fun s => lowerStr s.prompt))).1,
        lowerStr s.prompt ∈ (addTermPrompts target (uniqueCleanTerms remaining []) suggestions
          (suggestions.map (fun s => lowerStr s.prompt))).2 := by
      rw [h1, h2]
      intro s hs
      rcases List.mem_append.1 hs with hs | hs
      · exact List.mem_append_right _ (List.mem_map_of_mem _ hs)
      · exact List.mem_append_left _ (List.mem_reverse.2 (List.mem_map_of_mem _ hs))
    by_cases hlt : (addTermPrompts target (uniqueCleanTerms remaining []) suggestions
        (suggestions.map (fun s => lowerStr s.prompt))).1.length < target
    · rw [if_pos hlt]
      obtain ⟨d2, g1, g2, g3, g4, g5⟩ :=
        addGenericPrompts_spec genericFallbacks
          (addTermPrompts target (uniqueCleanTerms remaining []) suggestions
            (suggestions.map (fun s => lowerStr s.prompt))).1
          (addTermPrompts target (uniqueCleanTerms remaining []) suggestions
            (suggestions.map (fun s => lowerStr s.prompt))).2 target
      rw [g1]
      refine takeProps _ ?_ ?_
      · intro s hs
        rcases List.mem_append.1 hs with hs | hs
        · exact hr1E s hs
        · exact g3 s hs
      · rw [List.map_append, List.nodup_append]
        refine ⟨hr1N, g4, fun a ha hb => ?_⟩
        rcases List.mem_map.1 hb with ⟨s, hs, rfl⟩
        rcases List.mem_map.1 ha with ⟨s', hs', hsig⟩
        exact g5 s hs (hsig ▸ hr1seen s' hs')
    · rw [if_neg hlt]
      exact takeProps _ hr1E hr1N

lemma insertFollowUps_mem (sid mid t : Nat) :
    ∀ (l : List FollowUpSuggestion) (nid : Nat), ∀ f ∈ insertFollowUps sid mid t l nid,
      f.sessionId = sid ∧ f.generatedForMessageId = mid ∧ f.usedAt = none ∧
        ∃ s ∈ l, f.prompt = s.prompt := by
  intro l
  induction l with
  | nil => intro nid f hf; exact absurd hf (by simp [insertFollowUps])
  | cons s rest ih =>
    intro nid f hf
    rcases List.mem_cons.1 hf with rfl | hf
    · exact ⟨rfl, rfl, rfl, s, List.mem_cons_self _ _, rfl⟩
    · obtain ⟨ha, hb, hc, s', hs', hp⟩ := ih (nid + 1) f hf
      exact ⟨ha, hb, hc, s', List.mem_cons_of_mem _ hs', hp⟩

lemma insertFollowUps_map_lower (sid mid t : Nat) :
    ∀ (l : List FollowUpSuggestion) (nid : Nat),
      (insertFollowUps sid mid t l nid).map (fun f => lowerStr f.prompt) =
        l.map (fun s => lowerStr s.prompt) := by
  intro l
  induction l with
  | nil => intro nid; rfl
  | cons s rest ih => intro nid; simp [insertFollowUps, ih (nid + 1)]

lemma insertFollowUps_length (sid mid t : Nat) :
    ∀ (l : List FollowUpSuggestion) (nid : Nat),
      (insertFollowUps sid mid t l nid).length = l.length := by
  intro l
  induction l with
  | nil => intro nid; rfl
  | cons s rest ih => intro nid; simp [insertFollowUps, ih (nid + 1)]

/-- The unused follow-ups of a session after `replaceSessionFollowUps` are
exactly the freshly inserted batch. -/
lemma unused_replace (table : List FollowUpDoc) (sid mid : Nat)
    (batch : List FollowUpSuggestion) (t nid : Nat) :
    (replaceSessionFollowUps table sid mid batch t nid).filter
        (fun f => f.sessionId == sid && f.usedAt.isNone) =
      insertFollowUps sid mid t batch nid := by
  unfold replaceSessionFollowUps
  rw [List.filter_append]
  have hleft :
      (table.filter (fun f => !(f.sessionId == sid && f.usedAt.isNone))).filter
          (fun f => f.sessionId == sid && f.usedAt.isNone) = [] := by
    rw [List.filter_filter]
    apply List.filter_eq_nil_iff.2
    intro f _
    cases h : (f.sessionId == sid && f.usedAt.isNone) <;> simp [h]
  have hright :
      (insertFollowUps sid mid t batch nid).filter
          (fun f => f.sessionId == sid && f.usedAt.isNone) =
        insertFollowUps sid mid t batch nid := by
    apply List.filter_eq_self.2
    intro f hf
    obtain ⟨ha, _, hc, _⟩ := insertFollowUps_mem sid mid t batch nid f hf
    simp [ha, hc]
  rw [hleft, hright, List.nil_append]

/-- Claim C5: after a follow-up refresh (the pipeline
`normaliseFollowUpSuggestions` → `ensureFollowUpCount` →
`replaceSessionFollowUps`), the session has at most 3 unused follow-up
suggestions, all tagged with the generating assistant message, with pairwise
case-insensitively distinct prompts each ending in a question mark;
previously used suggestions survive and only unused ones are deleted. -/
theorem c5_theorem (table : List FollowUpDoc) (sessionId messageId : Nat)
    (payload : Option (List RawEntry)) (remaining : List (List Char)) (createdAt nextId : Nat) :
    (replaceSessionFollowUps table sessionId messageId
          (ensureFollowUpCount (normaliseFollowUpSuggestions payload) remaining 3)
          createdAt nextId).filter
        (fun f => f.sessionId == sessionId && f.usedAt.isNone) =
      insertFollowUps sessionId messageId createdAt
        (ensureFollowUpCount (normaliseFollowUpSuggestions payload) remaining 3) nextId ∧
    ((replaceSessionFollowUps table sessionId messageId
          (ensureFollowUpCount (normaliseFollowUpSuggestions payload) remaining 3)
          createdAt nextId).filter
        (fun f => f.sessionId == sessionId && f.usedAt.isNone)).length ≤ 3 ∧
    (∀ f ∈ (replaceSessionFollowUps table sessionId messageId
          (ensureFollowUpCount (normaliseFollowUpSuggestions payload) remaining 3)
          createdAt nextId).filter
        (fun f => f.sessionId == sessionId && f.usedAt.isNone),
        f.generatedForMessageId = messageId ∧ endsWithQmark f.prompt = true) ∧
    (((replaceSessionFollowUps table sessionId messageId
          (ensureFollowUpCount (normaliseFollowUpSuggestions payload) remaining 3)
          createdAt nextId).filter
        (fun f => f.sessionId == sessionId && f.usedAt.isNone)).map
          (fun f => lowerStr f.prompt)).Nodup ∧
    (∀ f ∈ table, f.sessionId = sessionId → f.usedAt.isSome = true →
        f ∈ replaceSessionFollowUps table sessionId messageId
          (ensureFollowUpCount (normaliseFollowUpSuggestions payload) remaining 3)
          createdAt nextId) ∧
    (∀ f ∈ table, f ∉ replaceSessionFollowUps table sessionId messageId
          (ensureFollowUpCount (normaliseFollowUpSuggestions payload) remaining 3)
          createdAt nextId →
        f.sessionId = sessionId ∧ f.usedAt = none) := by
  obtain ⟨hModelE, hModelN, _, _⟩ :=
    collectSuggestions_invariant (payload.getD []) [] 3
  have hbatch := ensureFollowUpCount_props (normaliseFollowUpSuggestions payload) remaining 3
    (fun s hs => hModelE s hs) hModelN
  have hun := unused_replace table sessionId messageId
    (ensureFollowUpCount (normaliseFollowUpSuggestions payload) remaining 3) createdAt nextId
  refine ⟨hun, ?_, ?_, ?_, ?_, ?_⟩
  · rw [hun, insertFollowUps_length]
    exact hbatch.2.2
  · rw [hun]
    intro f hf
    obtain ⟨_, hb, _, s, hs, hp⟩ := insertFollowUps_mem _ _ _ _ _ f hf
    exact ⟨hb, hp ▸ hbatch.1 s hs⟩
  · rw [hun, insertFollowUps_map_lower]
    exact hbatch.2.1
  · intro f hf hsid hused
    unfold replaceSessionFollowUps
    apply List.mem_append_left
    apply List.mem_filter.2
    refine ⟨hf, ?_⟩
    have : f.usedAt.isNone = false := by
      cases h : f.usedAt with
      | none => rw [h] at hused; exact absurd hused (by simp)
      | some v => simp
    simp [this]
  · intro f hf hnot
    by_cases hp : (f.sessionId == sessionId && f.usedAt.isNone) = true
    · simp only [Bool.and_eq_true, beq_iff_eq, Option.isNone_iff_eq_none] at hp
      exact hp
    · exfalso
      apply hnot
      unfold replaceSessionFollowUps
      apply List.mem_append_left
      exact List.mem_filter.2 ⟨hf, by simp [hp]⟩

/-- Concrete evaluation of the C5 pipeline: one model suggestion plus one
remaining term plus a generic fallback yield a full batch of three, and the
old unused suggestion is gone while the used one survives. -/
theorem c5_scenario :
    ((replaceSessionFollowUps
        [⟨9, 4, 1, "Old unused?".data, none, 1, none⟩,
         ⟨10, 4, 1, "Old used?".data, none, 1, some 2⟩] 4 8
        (ensureFollowUpCount
          (normaliseFollowUpSuggestions (some [RawEntry.entry (some "What is ATP".data) none]))
          ["glycolysis".data] 3) 7 11).filter
      (fun f => f.sessionId == 4 && f.usedAt.isNone)).length = 3 := by
  decide

/-! ## Claim C6 -/

lemma jsTrim_ne_nil_of_head (c : Char) (rest : List Char) (h : isJsWhitespace c = false) :
    jsTrim (c :: rest) ≠ [] := by
  unfold jsTrim
  rw [List.dropWhile_cons_of_neg (by simp [h])]
  intro hcon
  rw [List.reverse_eq_nil_iff, List.dropWhile_eq_nil_iff] at hcon
  have := hcon c (List.mem_reverse.2 (List.mem_cons_self _ _))
  simp [h] at this

lemma followUpTemplate_prompt_isSome (t : List Char) :
    ∃ p, normaliseFollowUpPrompt (followUpTemplate t) = some p := by
  have hne : jsTrim (followUpTemplate t) ≠ [] := by
    have hshape : followUpTemplate t = 'C' :: ("an we explore \"".data ++ t ++ "\" next".data) := rfl
    rw [hshape]
    exact jsTrim_ne_nil_of_head _ _ (by decide)
  simp only [normaliseFollowUpPrompt, cleanString]
  rw [if_neg hne]
  exact ⟨_, rfl⟩

lemma addTermPrompts_exact :
    ∀ (terms : List (List Char)) (result : List FollowUpSuggestion) (seen : List (List Char))
      (target : Nat),
      (terms.map
        (fun t => lowerStr ((normaliseFollowUpPrompt (followUpTemplate t)).getD []))).Nodup →
      (∀ t ∈ terms,
        lowerStr ((normaliseFollowUpPrompt (followUpTemplate t)).getD []) ∉ seen) →
      (addTermPrompts target terms result seen).1 =
        result ++ (terms.take (target - result.length)).map
          (fun t =>
            ⟨(normaliseFollowUpPrompt (followUpTemplate t)).getD [],
             some (followUpRationaleText t)⟩) := by
  intro terms
  induction terms with
  | nil => intro result seen target _ _; simp [addTermPrompts]
  | cons t rest ih =>
    intro result seen target hnd hseen
    obtain ⟨pt, hpt⟩ := followUpTemplate_prompt_isSome t
    rw [List.map_cons, List.nodup_cons] at hnd
    by_cases hfull : target ≤ result.length
    · have hz : target - result.length = 0 := by omega
      simp [addTermPrompts, hfull, hz]
    · have hptd : lowerStr ((normaliseFollowUpPrompt (followUpTemplate t)).getD []) =
          lowerStr pt := by rw [hpt]; rfl
      have hmem : lowerStr pt ∉ seen := by
        have h0 := hseen t (List.mem_cons_self _ _)
        rwa [hptd] at h0
      have hseen' : ∀ u ∈ rest,
          lowerStr ((normaliseFollowUpPrompt (followUpTemplate u)).getD [])
            ∉ lowerStr pt :: seen := by
        intro u hu hc
        rcases List.mem_cons.1 hc with hc | hc
        · apply hnd.1
          rw [hptd, ← hc]
          exact List.mem_map_of_mem _ hu
        · exact hseen u (List.mem_cons_of_mem _ hu) hc
      have hih := ih (result ++ [⟨pt, some (followUpRationaleText t)⟩]) (lowerStr pt :: seen)
        target hnd.2 hseen'
      simp only [addTermPrompts, if_neg hfull, hpt, if_neg hmem]
      rw [hih]
      have harith : target - result.length = (target - (result.length + 1)) + 1 := by omega
      rw [harith, List.take_succ_cons, List.map_cons]
      simp [hpt, List.length_append, List.append_assoc]

/-- Claim C6: with zero usable model suggestions and at least 3
case-insensitively distinct usable remaining terms, `ensureFollowUpCount`
(target 3) returns exactly 3 suggestions — the templated questions for the
first 3 remaining terms in order — pairwise distinct under case-insensitive
comparison and each ending in a question mark. -/
theorem c6_theorem (remainingTerms : List (List Char))
    (hsig : ((uniqueCleanTerms remainingTerms []).map
        (fun t => lowerStr ((normaliseFollowUpPrompt (followUpTemplate t)).getD []))).Nodup)
    (hlen : 3 ≤ (uniqueCleanTerms remainingTerms []).length) :
    ensureFollowUpCount [] remainingTerms 3 =
        ((uniqueCleanTerms remainingTerms []).take 3).map
          (fun t =>
            ⟨(normaliseFollowUpPrompt (followUpTemplate t)).getD [],
             some (followUpRationaleText t)⟩) ∧
      (ensureFollowUpCount [] remainingTerms 3).length = 3 ∧
      ((ensureFollowUpCount [] remainingTerms 3).map (fun s => lowerStr s.prompt)).Nodup ∧
      ∀ s ∈ ensureFollowUpCount [] remainingTerms 3, endsWithQmark s.prompt = true := by
  have hexact := addTermPrompts_exact (uniqueCleanTerms remainingTerms []) [] [] 3 hsig
    (by simp)
  simp only [List.nil_append, List.length_nil, Nat.sub_zero] at hexact
  have hlen1 : (addTermPrompts 3 (uniqueCleanTerms remainingTerms []) [] []).1.length = 3 := by
    rw [hexact, List.length_map, List.length_take]
    omega
  have hmain : ensureFollowUpCount [] remainingTerms 3 =
      ((uniqueCleanTerms remainingTerms []).take 3).map
        (fun t =>
          ⟨(normaliseFollowUpPrompt (followUpTemplate t)).getD [],
           some (followUpRationaleText t)⟩) := by
    simp only [ensureFollowUpCount, List.map_nil]
    rw [if_neg (by simp), if_neg (by rw [hlen1]; omega), hexact]
    apply List.take_of_length_le
    rw [List.length_map, List.length_take]
    omega
  refine ⟨hmain, ?_, ?_, ?_⟩
  · rw [hmain, List.length_map, List.length_take]
    omega
  · rw [hmain, List.map_map]
    have hcomp :
        ((fun s : FollowUpSuggestion => lowerStr s.prompt) ∘
            (fun t =>
              (⟨(normaliseFollowUpPrompt (followUpTemplate t)).getD [],
                some (followUpRationaleText t)⟩ : FollowUpSuggestion))) =
          fun t => lowerStr ((normaliseFollowUpPrompt (followUpTemplate t)).getD []) := rfl
    rw [hcomp, List.map_take]
    exact hsig.sublist (List.take_sublist _ _)
  · rw [hmain]
    intro s hs
    rcases List.mem_map.1 hs with ⟨t, _, rfl⟩
    obtain ⟨pt, hpt⟩ := followUpTemplate_prompt_isSome t
    simpa [hpt] using normaliseFollowUpPrompt_endsQ hpt

/-- Witness for C6: three distinct biology terms produce exactly the three
templated questions. -/
theorem c6_witness :
    3 ≤ (uniqueCleanTerms ["mitosis".data, "cytokinesis".data, "centromere".data] []).length ∧
      (ensureFollowUpCount [] ["mitosis".data, "cytokinesis".data, "centromere".data] 3).length
        = 3 :=
  ⟨by decide,
    ( c6_theorem ["mitosis".data, "cytokinesis".data, "centromere".data] (by decide)
      (by decide)).2.1⟩

/-! ## Claim C8 -/

lemma ensureFollowUpCount_nil_ne_nil (remaining : List (List Char)) :
    ensureFollowUpCount [] remaining 3 ≠ [] := by
  simp only [ensureFollowUpCount, List.map_nil]
  rw [if_neg (by simp)]
  obtain ⟨d, h1, h2, -, -, -⟩ := addTermPrompts_spec (uniqueCleanTerms remaining []) [] [] 3
  simp only [List.nil_append, List.append_nil] at h1 h2
  rcases d with _ | ⟨x, d'⟩
  · rw [h1, h2]
    decide
  · rw [h1]
    by_cases hlt : (x :: d').length < 3
    · rw [if_pos hlt, h2]
      obtain ⟨d2, g1, -, -, -, -⟩ :=
        addGenericPrompts_spec genericFallbacks (x :: d')
          ((List.map (fun s => lowerStr s.prompt) (x :: d')).reverse) 3
      rw [g1]
      simp [List.take_succ_cons]
    · rw [if_neg hlt]
      simp [List.take_succ_cons]

lemma recordAssistantTurn_ok_state {st : SessionState} {b : List Char} {u : Option MistralUsage}
    {n : Nat} {turn : TurnOutcome} {st1 : SessionState}
    (h : recordAssistantTurn st b u n = .ok (turn, st1)) :
    st1.sessionId = st.sessionId ∧ st1.phases = st.phases ∧
      ∃ m, st1.messages = st.messages ++ [m] := by
  unfold recordAssistantTurn at h
  cases hc : cleanString b with
  | none => rw [hc] at h; exact absurd h (by simp)
  | some ab =>
    rw [hc] at h
    simp only [Except.ok.injEq, Prod.mk.injEq] at h
    obtain ⟨-, hst⟩ := h
    subst hst
    exact ⟨rfl, rfl, _, rfl⟩

/-- Claim C8: a transport or JSON-parse failure while generating follow-up
suggestions is swallowed — it never changes whether `finalizeSessionTurn`
succeeds, and on success after such a failure the session still holds a
non-empty stored (backfilled) follow-up batch. -/
theorem c8_theorem :
    (∀ (st : SessionState) (uid : Nat) (body : List Char) (usage : Option MistralUsage)
        (now : Nat) (g1 g2 : Except GenError (Option (List RawEntry))),
        (finalizeSessionTurn st uid body usage g1 now).isOk =
          (finalizeSessionTurn st uid body usage g2 now).isOk) ∧
      ∀ (st : SessionState) (uid : Nat) (body : List Char) (usage : Option MistralUsage)
        (now : Nat) (e : GenError) (r : SessionTurnResult) (st2 : SessionState),
        finalizeSessionTurn st uid body usage (.error e) now = .ok (r, st2) →
        st2.followUps.filter (fun f => f.sessionId == st.sessionId && f.usedAt.isNone) ≠ [] := by
  constructor
  · intro st uid body usage now g1 g2
    cases hc : cleanString body with
    | none => simp [finalizeSessionTurn, hc]
    | some cleanedBody =>
      cases hr : recordAssistantTurn st cleanedBody usage now with
      | error e => simp [finalizeSessionTurn, hc, hr]
      | ok pr =>
        obtain ⟨turn, st1⟩ := pr
        cases hf : (recentTranscript st1.messages).find?
            (fun m => m.id == uid && decide (m.role = MessageRole.user)) with
        | none => simp [finalizeSessionTurn, hc, hr, hf]
        | some m =>
          simp only [finalizeSessionTurn, hc, hr, hf]
          rfl
  · intro st uid body usage now e r st2 h
    unfold finalizeSessionTurn at h
    cases hc : cleanString body with
    | none => simp [hc] at h
    | some cleanedBody =>
      simp only [hc] at h
      cases hr : recordAssistantTurn st cleanedBody usage now with
      | error e' => simp [hr] at h
      | ok pr =>
        obtain ⟨turn, st1⟩ := pr
        simp only [hr] at h
        cases hf : (recentTranscript st1.messages).find?
            (fun m => m.id == uid && decide (m.role = MessageRole.user)) with
        | none => simp [hf] at h
        | some m =>
          simp only [hf] at h
          simp only [Except.ok.injEq, Prod.mk.injEq] at h
          obtain ⟨-, hst2⟩ := h
          obtain ⟨hsid, -, -⟩ := recordAssistantTurn_ok_state hr
          subst hst2
          simp only [refreshFollowUpSuggestions, generateFollowUpSuggestions, hsid]
          rw [unused_replace]
          intro hcon
          have hb := ensureFollowUpCount_nil_ne_nil
            ((turn.phaseProgress.map (·.remainingTerms)).flatten)
          cases hbatch : ensureFollowUpCount []
              ((turn.phaseProgress.map (·.remainingTerms)).flatten) 3 with
          | nil => exact hb hbatch
          | cons y ys =>
            rw [hbatch] at hcon
            exact absurd hcon (by simp [insertFollowUps])

/-- A concrete session with one logged user message, for the C8 witness. -/
def c8state : SessionState :=
  { sessionId := 7
    session := ⟨"biology".data, some 0, 1, 0, 1, 0, 0, 0⟩
    phases := [⟨0, 0, "Basics".data, "learn".data⟩]
    terms := [⟨1, 0, "mitosis".data, none, none⟩]
    messages := [⟨2, .user, "hi".data, 1, none, none, none, none⟩]
    followUps := []
    nextId := 3 }

/-- Witness for C8: finalizing with a failed generation still succeeds and
stores a non-empty backfilled batch. -/
theorem c8_witness :
    ∃ (r : SessionTurnResult) (st2 : SessionState),
      finalizeSessionTurn c8state 2 "hello".data none (.error .parseFailure) 5 = .ok (r, st2) ∧
        st2.followUps.filter (fun f => f.sessionId == c8state.sessionId && f.usedAt.isNone)
          ≠ [] :=
  ⟨_, _, rfl, c8_theorem.2 c8state 2 "hello".data none 5 .parseFailure _ _ rfl⟩

/-! ## Claim C1 -/

instance : IsTotal PhaseDoc (fun a b => a.index ≤ b.index) :=
  ⟨fun a b => Nat.le_total a.index b.index⟩

instance : IsTrans PhaseDoc (fun a b => a.index ≤ b.index) :=
  ⟨fun _ _ _ h1 h2 => Nat.le_trans h1 h2⟩

lemma sortByIndex_sorted (l : List PhaseDoc) :
    (sortByIndex l).Pairwise (fun a b => a.index ≤ b.index) :=
  List.sorted_insertionSort _ l

lemma sortByIndex_perm (l : List PhaseDoc) : (sortByIndex l).Perm l :=
  List.perm_insertionSort _ l

lemma find?_eq_head?_filter (p : α → Bool) : ∀ l : List α, l.find? p = (l.filter p).head? := by
  intro l
  induction l with
  | nil => rfl
  | cons a t ih =>
    cases h : p a
    · rw [List.find?_cons_of_neg _ (by simp [h]), List.filter_cons_of_neg (by simp [h])]
      exact ih
    · rw [List.find?_cons_of_pos _ h, List.filter_cons_of_pos h]
      rfl

lemma head?_map_comm (f : α → β) (l : List α) : (l.map f).head? = l.head?.map f := by
  cases l <;> rfl

lemma min?_eq_head?_of_sorted :
    ∀ l : List Nat, l.Pairwise (· ≤ ·) → l.min? = l.head?
  | [], _ => rfl
  | a :: t, h => by
    rw [List.min?_cons, List.head?_cons, Option.some.injEq]
    cases ht : t.min? with
    | none => rfl
    | some m =>
      have hmem : m ∈ t := List.min?_mem (fun a b => by
        rcases Nat.le_total a b with hab | hab
        · exact Or.inl (Nat.min_eq_left hab)
        · exact Or.inr (Nat.min_eq_right hab)) ht
      have ham : a ≤ m := (List.pairwise_cons.1 h).1 m hmem
      simp [Nat.min_eq_left ham]

lemma filter_partition_length (P Q : α → Bool) (l : List α) :
    (l.filter Q).length =
      ((l.filter P).filter Q).length + ((l.filter (fun a => !P a)).filter Q).length := by
  induction l with
  | nil => rfl
  | cons a t ih =>
    cases hP : P a <;> cases hQ : Q a <;>
      simp [List.filter_cons, hP, hQ, ih] <;> omega

lemma phaseProgressOf_completedTerms (state : List TermDoc) (phase : PhaseDoc) :
    (phaseProgressOf state phase).completedTerms =
      ((state.filter (fun t => t.phaseIndex == phase.index)).filter
        (fun t => t.firstCoveredAt.isSome)).length := by
  simp [phaseProgressOf, sortStrings_length]

lemma phaseProgressOf_index (state : List TermDoc) (phase : PhaseDoc) :
    (phaseProgressOf state phase).index = phase.index := rfl

lemma buildPhaseProgress_completed_sum :
    ∀ (phases : List PhaseDoc) (state : List TermDoc),
      (phases.map (·.index)).Nodup →
      (∀ t ∈ state, t.phaseIndex ∈ phases.map (·.index)) →
      ((buildPhaseProgress phases state).map (·.completedTerms)).sum =
        (state.filter (fun t => t.firstCoveredAt.isSome)).length := by
  intro phases
  induction phases with
  | nil =>
    intro state _ hcov
    have hempty : state = [] :=
      List.eq_nil_iff_forall_not_mem.2 (fun t ht => by simpa using hcov t ht)
    simp [buildPhaseProgress, hempty]
  | cons p ps ih =>
    intro state hnd hcov
    rw [List.map_cons, List.nodup_cons] at hnd
    have hqs : ∀ q ∈ ps, q.index ≠ p.index := by
      intro q hq hc
      exact hnd.1 (hc ▸ List.mem_map_of_mem (·.index) hq)
    have hsum_ps :
        ((buildPhaseProgress ps state).map (·.completedTerms)).sum =
          ((buildPhaseProgress ps
            (state.filter (fun t => !(t.phaseIndex == p.index)))).map
              (·.completedTerms)).sum := by
    -- per-phase: removing the head phase's terms does not change any other
    -- phase's count, since indices are distinct
      unfold buildPhaseProgress
      rw [List.map_map, List.map_map]
      apply congrArg
      apply List.map_congr_left
      intro q hq
      simp only [Function.comp_apply, phaseProgressOf_completedTerms]
      have hff :
          (state.filter (fun t => !(t.phaseIndex == p.index))).filter
              (fun t => t.phaseIndex == q.index) =
            state.filter (fun t => t.phaseIndex == q.index) := by
        rw [List.filter_filter]
        apply List.filter_congr
        intro t _
        cases htq : (t.phaseIndex == q.index)
        · rfl
        · have htpq : t.phaseIndex = q.index := by simpa using htq
          simp [htpq, hqs q hq]
      rw [hff]
    have hcovB : ∀ t ∈ state.filter (fun t => !(t.phaseIndex == p.index)),
        t.phaseIndex ∈ ps.map (·.index) := by
      intro t ht
      obtain ⟨htmem, htne⟩ := List.mem_filter.1 ht
      have := hcov t htmem
      rw [List.map_cons] at this
      rcases List.mem_cons.1 this with hc | hc
      · rw [hc] at htne
        simp at htne
      · exact hc
    have hIH := ih (state.filter (fun t => !(t.phaseIndex == p.index))) hnd.2 hcovB
    have hstep : ((buildPhaseProgress (p :: ps) state).map (·.completedTerms)).sum =
        (phaseProgressOf state p).completedTerms +
          ((buildPhaseProgress ps state).map (·.completedTerms)).sum := by
      simp [buildPhaseProgress]
    rw [hstep, phaseProgressOf_completedTerms, hsum_ps, hIH,
      filter_partition_length (fun t => t.phaseIndex == p.index)
        (fun t => t.firstCoveredAt.isSome) state]

lemma buildPhaseProgress_pairwise (phases : List PhaseDoc) (state : List TermDoc) :
    (buildPhaseProgress (sortByIndex phases) state).Pairwise
      (fun a b => a.index ≤ b.index) := by
  unfold buildPhaseProgress
  exact (sortByIndex_sorted phases).map _ (fun a b h => h)

lemma currentPhaseIndex_eq_min (phases : List PhaseDoc) (state : List TermDoc) :
    ((buildPhaseProgress (sortByIndex phases) state).find? (fun p => !p.isComplete)).map
        (·.index) =
      (((buildPhaseProgress (sortByIndex phases) state).filter
        (fun p => !p.isComplete)).map (·.index)).min? := by
  have hpw : (((buildPhaseProgress (sortByIndex phases) state).filter
      (fun p => !p.isComplete)).map (·.index)).Pairwise (· ≤ ·) :=
    ((buildPhaseProgress_pairwise phases state).filter _).map _ (fun a b h => h)
  rw [min?_eq_head?_of_sorted _ hpw, find?_eq_head?_filter, head?_map_comm]

lemma applyCovered_phaseIndexes :
    ∀ (covered : List TermDoc) (state : List TermDoc) (newly : List (List Char)) (now : Nat),
      ∀ u ∈ (applyCovered now state newly covered).1, ∃ v ∈ state, u.phaseIndex = v.phaseIndex := by
  intro covered
  induction covered with
  | nil => intro state newly now u hu; exact ⟨u, hu, rfl⟩
  | cons term rest ih =>
    intro state newly now u hu
    rw [applyCovered] at hu
    cases hcur : getTermById state term.id with
    | none =>
      rw [hcur] at hu
      exact ih state newly now u hu
    | some current =>
      rw [hcur] at hu
      obtain ⟨v, hv, hpv⟩ := ih _ _ now u hu
      simp only [setTermById, List.mem_map] at hv
      obtain ⟨w, hw, hwv⟩ := hv
      by_cases hcond : (w.id == current.id) = true
      · rw [if_pos hcond] at hwv
        have hcurmem : current ∈ state := List.mem_of_find?_eq_some hcur
        exact ⟨current, hcurmem, by rw [hpv, ← hwv]⟩
      · rw [if_neg hcond] at hwv
        exact ⟨w, hw, by rw [hpv, ← hwv]⟩

/-- Claim C1: after every successful `recordAssistantTurn` on a well-formed
session (distinct phase indices, every term attached to an existing phase),
the patched session satisfies: `completedTerms` is the number of terms with
`firstCoveredAt` set, which equals the sum of covered terms across all
phases; `completedPhases` is the number of complete phases; and
`currentPhaseIndex` is the lowest index of an incomplete phase, or absent
(null) when every phase is complete. -/
theorem c1_theorem (st : SessionState) (body : List Char) (usage : Option MistralUsage)
    (now : Nat) (o : TurnOutcome) (st' : SessionState)
    (hrec : recordAssistantTurn st body usage now = .ok (o, st'))
    (hnd : (st.phases.map (·.index)).Nodup)
    (hcov : ∀ t ∈ st.terms, t.phaseIndex ∈ st.phases.map (·.index)) :
    st'.session.completedTerms =
        (st'.terms.filter (fun t => t.firstCoveredAt.isSome)).length ∧
      st'.session.completedTerms = ((o.phaseProgress.map (·.completedTerms))).sum ∧
      st'.session.completedPhases = (o.phaseProgress.filter (·.isComplete)).length ∧
      st'.session.currentPhaseIndex =
        ((o.phaseProgress.filter (fun p => !p.isComplete)).map (·.index)).min? := by
  unfold recordAssistantTurn at hrec
  cases hc : cleanString body with
  | none => rw [hc] at hrec; exact absurd hrec (by simp)
  | some assistantBody =>
    rw [hc] at hrec
    simp only [Except.ok.injEq, Prod.mk.injEq] at hrec
    obtain ⟨ho, hst⟩ := hrec
    subst ho
    subst hst
    have hndS : ((sortByIndex st.phases).map (·.index)).Nodup :=
      (((sortByIndex_perm st.phases).map (·.index)).nodup_iff).2 hnd
    have hcovS : ∀ t ∈ (applyCovered now st.terms []
        (detectCoveredTerms assistantBody st.terms)).1,
        t.phaseIndex ∈ (sortByIndex st.phases).map (·.index) := by
      intro t ht
      obtain ⟨v, hv, hpv⟩ := applyCovered_phaseIndexes _ _ _ _ t ht
      rw [hpv]
      exact ((sortByIndex_perm st.phases).map (·.index)).mem_iff.2 (hcov v hv)
    refine ⟨rfl, ?_, rfl, ?_⟩
    · exact (buildPhaseProgress_completed_sum (sortByIndex st.phases) _ hndS hcovS).symm
    · exact currentPhaseIndex_eq_min st.phases _

/-- A concrete two-phase session for the C1 witness. -/
def c1state : SessionState :=
  { sessionId := 3
    session := ⟨"biology".data, some 0, 2, 0, 3, 0, 0, 0⟩
    phases := [⟨0, 0, "Basics".data, "learn".data⟩, ⟨1, 1, "Depth".data, "more".data⟩]
    terms := [⟨2, 0, "mitosis".data, none, none⟩, ⟨3, 0, "meiosis".data, some 2, some 1⟩,
              ⟨4, 1, "centromere".data, none, none⟩]
    messages := []
    followUps := []
    nextId := 5 }

/-- Witness for C1: an assistant turn covering "mitosis" leaves consistent
aggregates. -/
theorem c1_witness :
    ∃ (o : TurnOutcome) (st' : SessionState),
      recordAssistantTurn c1state "mitosis is cell division".data none 5 = .ok (o, st') ∧
        st'.session.completedTerms = ((o.phaseProgress.map (·.completedTerms))).sum ∧
        st'.session.currentPhaseIndex =
          ((o.phaseProgress.filter (fun p => !p.isComplete)).map (·.index)).min? :=
  ⟨_, _, rfl,
    (c1_theorem c1state "mitosis is cell division".data none 5 _ _ rfl (by decide)
      (by decide)).2.1,
    (c1_theorem c1state "mitosis is cell division".data none 5 _ _ rfl (by decide)
      (by decide)).2.2.2⟩

/-! ## Claim C2 -/

lemma getTermById_setTermById_ne (t : TermDoc) (i : Nat) (h : i ≠ t.id) :
    ∀ s : List TermDoc, getTermById (setTermById s t) i = getTermById s i := by
  intro s
  induction s with
  | nil => rfl
  | cons u rest ih =>
    unfold setTermById getTermById at *
    rw [List.map_cons]
    by_cases hu : u.id = t.id
    · rw [if_pos (by simp [hu])]
      rw [List.find?_cons_of_neg _ (by simp; omega), List.find?_cons_of_neg _ (by simp [hu]; omega)]
      exact ih
    · rw [if_neg (by simp [hu])]
      by_cases hui : u.id = i
      · rw [List.find?_cons_of_pos _ (by simp [hui]), List.find?_cons_of_pos _ (by simp [hui])]
      · rw [List.find?_cons_of_neg _ (by simp [hui]), List.find?_cons_of_neg _ (by simp [hui])]
        exact ih

lemma getTermById_setTermById_self (t : TermDoc) (current : TermDoc) :
    ∀ s : List TermDoc, getTermById s t.id = some current →
      getTermById (setTermById s t) t.id = some t := by
  intro s
  induction s with
  | nil => intro h; simp [getTermById] at h
  | cons u rest ih =>
    intro h
    unfold setTermById getTermById at *
    rw [List.map_cons]
    by_cases hu : u.id = t.id
    · rw [if_pos (by simp [hu])]
      rw [List.find?_cons_of_pos _ (by simp)]
    · rw [if_neg (by simp [hu])]
      rw [List.find?_cons_of_neg _ (by simp [hu])] at h
      rw [List.find?_cons_of_neg _ (by simp [hu])]
      exact ih h

lemma applyCovered_preserves :
    ∀ (covered : List TermDoc) (state : List TermDoc) (newly : List (List Char)) (now : Nat)
      (i : Nat) (u : TermDoc), getTermById state i = some u →
      ∃ u', getTermById (applyCovered now state newly covered).1 i = some u' ∧
        (∀ ts, u.firstCoveredAt = some ts → u'.firstCoveredAt = some ts) ∧
        u.exposureCount.getD 0 ≤ u'.exposureCount.getD 0 := by
  intro covered
  induction covered with
  | nil => intro state newly now i u hu; exact ⟨u, hu, fun ts h => h, Nat.le_refl _⟩
  | cons term rest ih =>
    intro state newly now i u hu
    rw [applyCovered]
    cases hcur : getTermById state term.id with
    | none => exact ih state newly now i u hu
    | some current =>
      by_cases hi : i = current.id
      · subst hi
        have hcid : (current.id == term.id) = true := by
          have := List.find?_some hcur
          simpa using this
        have hcid' : current.id = term.id := by simpa using hcid
        have hcu : current = u := by
          rw [hcid'] at hu
          rw [hu] at hcur
          exact (Option.some.inj hcur).symm
        subst hcu
        have hset : getTermById (setTermById state
            { current with
              exposureCount := some (current.exposureCount.getD 0 + 1),
              firstCoveredAt := some (current.firstCoveredAt.getD now) }) current.id =
            some { current with
              exposureCount := some (current.exposureCount.getD 0 + 1),
              firstCoveredAt := some (current.firstCoveredAt.getD now) } := by
          apply getTermById_setTermById_self _ current
          rw [← hcid'] at hcur
          exact hcur
        obtain ⟨u', h1, h2, h3⟩ := ih _ _ now current.id _ hset
        refine ⟨u', h1, ?_, ?_⟩
        · intro ts hts
          apply h2
          simp [hts]
        · calc current.exposureCount.getD 0 ≤ current.exposureCount.getD 0 + 1 := by omega
            _ ≤ u'.exposureCount.getD 0 := by simpa using h3
      · have hset : getTermById (setTermById state
            { current with
              exposureCount := some (current.exposureCount.getD 0 + 1),
              firstCoveredAt := some (current.firstCoveredAt.getD now) }) i =
            getTermById state i :=
          getTermById_setTermById_ne
            { current with
              exposureCount := some (current.exposureCount.getD 0 + 1),
              firstCoveredAt := some (current.firstCoveredAt.getD now) } i hi state
        obtain ⟨u', h1, h2, h3⟩ := ih _ _ now i u (by rw [hset]; exact hu)
        exact ⟨u', h1, h2, h3⟩

lemma recordAssistantTurn_term_preserves {st : SessionState} {b : List Char}
    {us : Option MistralUsage} {n : Nat} {o : TurnOutcome} {st1 : SessionState}
    (h : recordAssistantTurn st b us n = .ok (o, st1)) (i : Nat) (u : TermDoc)
    (hu : getTermById st.terms i = some u) :
    ∃ u', getTermById st1.terms i = some u' ∧
      (∀ ts, u.firstCoveredAt = some ts → u'.firstCoveredAt = some ts) ∧
      u.exposureCount.getD 0 ≤ u'.exposureCount.getD 0 := by
  unfold recordAssistantTurn at h
  cases hc : cleanString b with
  | none => rw [hc] at h; exact absurd h (by simp)
  | some ab =>
    rw [hc] at h
    simp only [Except.ok.injEq, Prod.mk.injEq] at h
    obtain ⟨-, hst⟩ := h
    subst hst
    exact applyCovered_preserves (detectCoveredTerms ab st.terms) st.terms [] n i u hu

lemma runTurns_monotonic :
    ∀ (turns : List (List Char × Option MistralUsage × Nat)) (st : SessionState)
      (i : Nat) (u : TermDoc), getTermById st.terms i = some u →
      ∃ u', getTermById (runTurns st turns).terms i = some u' ∧
        (∀ ts, u.firstCoveredAt = some ts → u'.firstCoveredAt = some ts) ∧
        u.exposureCount.getD 0 ≤ u'.exposureCount.getD 0 := by
  intro turns
  induction turns with
  | nil => intro st i u hu; exact ⟨u, hu, fun ts h => h, Nat.le_refl _⟩
  | cons turn rest ih =>
    intro st i u hu
    obtain ⟨body, usage, now⟩ := turn
    rw [runTurns]
    cases hr : recordAssistantTurn st body usage now with
    | error e => exact ih st i u hu
    | ok pr =>
      obtain ⟨o, st1⟩ := pr
      obtain ⟨u1, h1, h2, h3⟩ := recordAssistantTurn_term_preserves hr i u hu
      obtain ⟨u', g1, g2, g3⟩ := ih st1 i u1 h1
      exact ⟨u', g1, fun ts hts => g2 ts (h2 ts hts), Nat.le_trans h3 g3⟩

/-- Claim C2: across any sequence of assistant-turn finalizations on a
session with distinct term ids, a term's `firstCoveredAt` timestamp, once
set, is never changed or cleared, and its `exposureCount` never
decreases. -/
theorem c2_theorem (st : SessionState) (turns : List (List Char × Option MistralUsage × Nat))
    (i : Nat) (u : TermDoc)
    (_hids : (st.terms.map (·.id)).Nodup)
    (hu : getTermById st.terms i = some u) :
    ∃ u', getTermById (runTurns st turns).terms i = some u' ∧
      (∀ ts, u.firstCoveredAt = some ts → u'.firstCoveredAt = some ts) ∧
      u.exposureCount.getD 0 ≤ u'.exposureCount.getD 0 :=
  runTurns_monotonic turns st i u hu

/-- A concrete session for the C2 witness: the term "meiosis" is already
covered at time 2 with one exposure. -/
def c2state : SessionState :=
  { sessionId := 3
    session := ⟨"biology".data, some 0, 1, 0, 2, 1, 0, 0⟩
    phases := [⟨0, 0, "Basics".data, "learn".data⟩]
    terms := [⟨2, 0, "mitosis".data, none, none⟩, ⟨3, 0, "meiosis".data, some 2, some 1⟩]
    messages := []
    followUps := []
    nextId := 5 }

/-- Witness for C2: two further turns (one mentioning "meiosis" again)
leave its first-covered timestamp at 2 and do not decrease its exposure
count. -/
theorem c2_witness :
    (c2state.terms.map (·.id)).Nodup ∧
      getTermById c2state.terms 3 = some ⟨3, 0, "meiosis".data, some 2, some 1⟩ ∧
      ∃ u', getTermById (runTurns c2state
            [("meiosis and mitosis".data, none, 9), ("more review".data, none, 11)]).terms 3 =
          some u' ∧
        (∀ ts, (some 2 : Option Nat) = some ts → u'.firstCoveredAt = some ts) ∧
        (some 1 : Option Nat).getD 0 ≤ u'.exposureCount.getD 0 :=
  ⟨by decide, by decide,
    c2_theorem c2state [("meiosis and mitosis".data, none, 9), ("more review".data, none, 11)]
      3 ⟨3, 0, "meiosis".data, some 2, some 1⟩ (by decide) (by decide)⟩

/-! ## Claim C9 -/

lemma recentTranscript_length_pos (msgs : List MessageDoc) :
    0 < (recentTranscript msgs).length ↔ msgs ≠ [] := by
  have hlen : (recentTranscript msgs).length = min 40 msgs.length := by
    unfold recentTranscript sortByCreatedAt
    rw [List.length_reverse, List.length_take, List.length_reverse,
      (List.perm_insertionSort _ msgs).length_eq]
  rw [hlen, Nat.lt_min]
  simp [List.length_pos]

lemma startSessionIntroduction_noop (st : SessionState)
    (llm : Except MistralError (List Char × Option MistralUsage))
    (outcome : Except GenError (Option (List RawEntry))) (now : Nat)
    (hne : st.messages ≠ []) :
    startSessionIntroduction st llm outcome now = .ok ({ alreadyInitialized := true }, st) := by
  unfold startSessionIntroduction
  rw [if_pos ((recentTranscript_length_pos st.messages).2 hne)]

/-- Claim C9: `startSessionIntroduction` on a session whose transcript
already holds a message reports `alreadyInitialized` and performs no writes;
consequently running the introduction flow twice performs the welcome
generation only once — whatever the first call did, the second is a
no-op. -/
theorem c9_theorem :
    (∀ (st : SessionState) (llm : Except MistralError (List Char × Option MistralUsage))
        (outcome : Except GenError (Option (List RawEntry))) (now : Nat),
        st.messages ≠ [] →
        startSessionIntroduction st llm outcome now =
          .ok ({ alreadyInitialized := true }, st)) ∧
      ∀ (st : SessionState) (llm : Except MistralError (List Char × Option MistralUsage))
        (outcome : Except GenError (Option (List RawEntry))) (now : Nat)
        (llm2 : Except MistralError (List Char × Option MistralUsage))
        (outcome2 : Except GenError (Option (List RawEntry))) (now2 : Nat)
        (r : IntroResult) (st' : SessionState),
        startSessionIntroduction st llm outcome now = .ok (r, st') →
        startSessionIntroduction st' llm2 outcome2 now2 =
          .ok ({ alreadyInitialized := true }, st') := by
  constructor
  · exact fun st llm outcome now hne => startSessionIntroduction_noop st llm outcome now hne
  · intro st llm outcome now llm2 outcome2 now2 r st' h
    by_cases hne : st.messages = []
    · unfold startSessionIntroduction at h
      rw [if_neg (by
        rw [recentTranscript_length_pos]
        simpa using hne)] at h
      cases llm with
      | error e => simp at h
      | ok pr =>
        obtain ⟨content, usage⟩ := pr
        simp only at h
        cases hr : recordAssistantTurn st (jsTrim content) usage now with
        | error e => simp [hr] at h
        | ok pr1 =>
          obtain ⟨turn, st1⟩ := pr1
          simp only [hr] at h
          simp only [Except.ok.injEq, Prod.mk.injEq] at h
          obtain ⟨-, hst'⟩ := h
          obtain ⟨-, -, m, hmsg⟩ := recordAssistantTurn_ok_state hr
          -- the refresh step only rewrites followUps/nextId, so the
          -- messages are those after the recorded welcome turn: non-empty
          apply startSessionIntroduction_noop
          rw [← hst']
          show st1.messages ≠ []
          rw [hmsg]
          simp
    · have hnoop := startSessionIntroduction_noop st llm outcome now hne
      rw [hnoop] at h
      simp only [Except.ok.injEq, Prod.mk.injEq] at h
      obtain ⟨-, hst'⟩ := h
      subst hst'
      exact startSessionIntroduction_noop st llm2 outcome2 now2 hne

/-- A fresh session (no transcript) for the C9 witness. -/
def c9state : SessionState :=
  { sessionId := 6
    session := ⟨"biology".data, some 0, 1, 0, 1, 0, 0, 0⟩
    phases := [⟨0, 0, "Basics".data, "learn".data⟩]
    terms := [⟨1, 0, "mitosis".data, none, none⟩]
    messages := []
    followUps := []
    nextId := 2 }

/-- Witness for C9: after a successful introduction, the second call
reports already-initialized and leaves the state untouched. -/
theorem c9_witness :
    ∃ (r : IntroResult) (st' : SessionState),
      startSessionIntroduction c9state (.ok ("Welcome to biology".data, none))
          (.error .parseFailure) 3 = .ok (r, st') ∧
        startSessionIntroduction st' (.ok ("Hi again".data, none)) (.error .parseFailure) 9 =
          .ok ({ alreadyInitialized := true }, st') :=
  ⟨_, _, rfl,
    c9_theorem.2 c9state (.ok ("Welcome to biology".data, none)) (.error .parseFailure) 3
      (.ok ("Hi again".data, none)) (.error .parseFailure) 9 _ _ rfl⟩

end Vibecoursing
